import Mathlib

/-!
# ASCIIEngine: shapes, compositor and window sink

A shallow embedding of `src/ascii.hpp` (class `ASCIIWindow`),
`src/engine.hpp` (classes `CharStruct`, `CollChar`, `Line`, `Box`,
`StoredGrid`, `CharStructGroup`, `CharDisplay`) and `src/menu.cpp` (class
`Menu`).

Conventions of the embedding.

* `unsigned short` / `unsigned char` / `unsigned int` values are natural
  numbers.  C++ evaluates `a + b` on `unsigned short` operands in `int`, so
  sums and differences inside comparisons are taken in `Int` without
  wraparound; a value is reduced modulo `65536` exactly where the source
  stores it into an `unsigned short` variable or parameter.
* `chars[x][y] = chr` on the `unsigned char**` buffer is a `Store`.  The
  `write` methods never read the buffer, so each returns the sequence of
  stores it performs, in program order; `applyStores` replays them.
* A loop whose counter is an `unsigned short` that can wrap around without
  leaving the loop takes a `fuel` argument bounding the number of
  iterations; `Err.outOfFuel` is returned when the fuel is used up.
* `Err.windowError` is the exception `WindowError`; `Err.vectorRange` is an
  access `structs[i]` with `i >= structs.size()` (undefined behaviour).
* The window writes to the curses screen.  Of the library only the pair
  `move(y, x); addch(c);` is described, in `ASCIIWindow.moveAddch`: what it
  does for a printable character and for a newline; after any other call
  the cells of the screen are left undetermined.
* A `CharStruct*` held by a `CharDisplay` is a `StructPtr`: the address
  (used by the identity comparisons `ptr == structs[i]`) together with the
  object it points to.  Children of a `CharStructGroup` are kept by value.
-/

namespace ASCIIEngine

/-- Ways in which a call does not return a value. -/
inductive Err where
  | windowError
  | vectorRange
  | outOfFuel
  deriving DecidableEq, Repr

deriving instance DecidableEq for Except

/-- Conversion of an `int` or `size_t` value to `unsigned short`. -/
def toU16 (n : Int) : Nat := (n % 65536).toNat

/-! ## `ASCIIWindow` (src/ascii.hpp) -/

/-- A built window: the members `wd`, `ht`, `posX`, `posY`, and what the
class writes to, the curses screen `stdscr` that `build()` obtains from
`initscr()`.  The screen has the size of the terminal, `cols` by `lines`
(the check of the terminal against `wd`, `ht` in `build()` is commented
out).  `cells x y` is the character the screen holds at column `x`, row
`y`; it is `none` where the calls made so far do not determine it. -/
structure ASCIIWindow where
  wd : Nat
  ht : Nat
  posX : Nat
  posY : Nat
  cols : Nat
  lines : Nat
  cells : Nat → Nat → Option Nat

/-- `ASCIIWindow::inBounds`: `return (x < wd || y < ht);` -/
def ASCIIWindow.inBounds (win : ASCIIWindow) (x y : Nat) : Bool :=
  decide (x < win.wd) || decide (y < win.ht)

/-- The screen after the curses calls `move(y, x); addch(c);` (`addch` is
what `ASCIIWindow::writeChar` calls).  With `(x, y)` on the screen, a
printable character, 32 to 126, is put at `(x, y)`; a newline, 10, is not
put anywhere: it blanks row `y` from column `x` on.  For any other value of
`c` (other control characters, bytes from 127 on), and when `(x, y)` is off
the screen, so that `move` fails and `addch` writes where the terminal
cursor happens to be, no cell is determined afterwards. -/
def ASCIIWindow.moveAddch (win : ASCIIWindow) (x y c : Nat) : Nat → Nat → Option Nat :=
  if x < win.cols ∧ y < win.lines then
    if 32 ≤ c ∧ c ≤ 126 then fun i j => if i = x ∧ j = y then some c else win.cells i j
    else if c = 10 then fun i j => if x ≤ i ∧ j = y then some 32 else win.cells i j
    else fun _ _ => none
  else fun _ _ => none

/-- `ASCIIWindow::writeAtNR`: throws when `x >= wd || y >= ht`, otherwise
`move(y, x); writeChar(c); posX = x; posY = y;`. -/
def ASCIIWindow.writeAtNR (win : ASCIIWindow) (x y c : Nat) : Except Err ASCIIWindow :=
  if x ≥ win.wd ∨ y ≥ win.ht then .error .windowError
  else .ok { win with
    cells := win.moveAddch x y c
    posX := x
    posY := y }

/-- `ASCIIWindow::moveCursor`: `posX += byX; posY += byY;` on the
`unsigned short` cursor, then `outOfBounds = (posX >= wd || posY >= ht)`;
when out of bounds,
`if(posX > 32767) posX = 0; if(posY > 32767) posY = 0;`
`if(posX >= wd) posX = wd-1; if(posY >= ht) posY = ht-1;`
and finally `move(posY, posX); return !outOfBounds;`.  The curses call puts
the terminal cursor at the stored position and changes no member.  The
result is the returned flag and the window afterwards; `byX`, `byY` are the
`short` arguments. -/
def ASCIIWindow.moveCursor (win : ASCIIWindow) (byX byY : Int) : Bool × ASCIIWindow :=
  let posX := toU16 ((win.posX : Int) + byX)
  let posY := toU16 ((win.posY : Int) + byY)
  let outOfBounds := decide (posX ≥ win.wd) || decide (posY ≥ win.ht)
  if outOfBounds then
    let posX := if posX > 32767 then 0 else posX
    let posY := if posY > 32767 then 0 else posY
    let posX := if posX ≥ win.wd then toU16 ((win.wd : Int) - 1) else posX
    let posY := if posY ≥ win.ht then toU16 ((win.ht : Int) - 1) else posY
    (!outOfBounds, { win with posX := posX, posY := posY })
  else (!outOfBounds, { win with posX := posX, posY := posY })

/-! ## Buffer stores -/

/-- One assignment `chars[x][y] = c`.  The indices are `int` expressions in
`Box::write`, hence integers. -/
structure Store where
  x : Int
  y : Int
  c : Nat
  deriving DecidableEq, Repr

/-- The effect of one store on the buffer contents. -/
def Store.apply (st : Store) (chars : Int → Int → Nat) : Int → Int → Nat :=
  fun x y => if x = st.x ∧ y = st.y then st.c else chars x y

/-- The effect of a sequence of stores, first store first. -/
def applyStores (sts : List Store) (chars : Int → Int → Nat) : Int → Int → Nat :=
  sts.foldl (fun b st => st.apply b) chars

/-! ## `CollChar` -/

/-- Class `CollChar`: a single tile. -/
structure CollChar where
  collCode : Nat
  xp : Nat
  yp : Nat
  chr : Nat
  deriving DecidableEq, Repr

/-- `CollChar::inColl`: `return (x == xp && y == yp);` -/
def CollChar.inColl (s : CollChar) (x y : Nat) : Bool :=
  x == s.xp && y == s.yp

/-- `CollChar::charAt`: `if(inColl(x, y)) return chr; else return 0;` -/
def CollChar.charAt (s : CollChar) (x y : Nat) : Nat :=
  if s.inColl x y then s.chr else 0

/-- `CollChar::draw`. -/
def CollChar.draw (s : CollChar) (win : ASCIIWindow) (xo yo : Nat) : Except Err ASCIIWindow :=
  let x := (s.xp + xo) % 65536
  let y := (s.yp + yo) % 65536
  if win.inBounds x y then win.writeAtNR x y s.chr else .ok win

/-- `CollChar::write`. -/
def CollChar.write (s : CollChar) (xo yo xMax yMax : Nat) : List Store :=
  let x := (s.xp + xo) % 65536
  let y := (s.yp + yo) % 65536
  if x < xMax ∧ y < yMax then [⟨x, y, s.chr⟩] else []

/-! ## `Line` -/

/-- Class `Line`: `len` cells from `(xp, yp)`, downwards when `vert`. -/
structure Line where
  collCode : Nat
  xp : Nat
  yp : Nat
  chr : Nat
  len : Nat
  vert : Bool
  deriving DecidableEq, Repr

/-- `Line::inColl`. -/
def Line.inColl (s : Line) (x y : Nat) : Bool :=
  let iPa := if s.vert then x else y
  let sPa := if s.vert then s.xp else s.yp
  let iPp := if s.vert then y else x
  let sPp := if s.vert then s.yp else s.xp
  if iPa = sPa then
    decide (iPp ≥ sPp) && decide ((iPp : Int) ≤ (sPp : Int) + (s.len : Int) - 1)
  else false

/-- `Line::charAt`: `if(inColl(x,y)) return chr; else return 0;` -/
def Line.charAt (s : Line) (x y : Nat) : Nat :=
  if s.inColl x y then s.chr else 0

/-- The loop of `Line::draw` with `n` iterations left:
`if(win.inBounds(x, y)) win.writeAtNR(x, y, chr); vert ? y++ : x++;` -/
def Line.drawLoop (s : Line) : Nat → Nat → Nat → ASCIIWindow → Except Err ASCIIWindow
  | 0, _, _, win => .ok win
  | n + 1, x, y, win =>
    match (if win.inBounds x y then win.writeAtNR x y s.chr else .ok win) with
    | .error e => .error e
    | .ok win1 =>
      if s.vert then Line.drawLoop s n x ((y + 1) % 65536) win1
      else Line.drawLoop s n ((x + 1) % 65536) y win1

/-- `Line::draw`: the counter `i` runs from `0` while `i < len`. -/
def Line.draw (s : Line) (win : ASCIIWindow) (xo yo : Nat) : Except Err ASCIIWindow :=
  Line.drawLoop s s.len ((xo + s.xp) % 65536) ((yo + s.yp) % 65536) win

/-- The loop of `Line::write` with `n` iterations left:
`if(x < xMax && y < yMax) chars[x][y] = chr; vert ? y++ : x++;` -/
def Line.writeLoop (s : Line) (xMax yMax : Nat) : Nat → Nat → Nat → List Store
  | 0, _, _ => []
  | n + 1, x, y =>
    (if x < xMax ∧ y < yMax then [(⟨x, y, s.chr⟩ : Store)] else []) ++
      (if s.vert then Line.writeLoop s xMax yMax n x ((y + 1) % 65536)
       else Line.writeLoop s xMax yMax n ((x + 1) % 65536) y)

/-- `Line::write`: the counter `i` runs from `0` while `i < len`. -/
def Line.write (s : Line) (xo yo xMax yMax : Nat) : List Store :=
  Line.writeLoop s xMax yMax s.len ((xo + s.xp) % 65536) ((yo + s.yp) % 65536)

/-! ## `Box` -/

/-- Class `Box`: a `wd` by `ht` rectangle of one character. -/
structure Box where
  collCode : Nat
  xp : Nat
  yp : Nat
  fill : Bool
  collIn : Bool
  chr : Nat
  wd : Nat
  ht : Nat
  deriving DecidableEq, Repr

/-- `Box::inColl`:
`bool inBox = (x >= xp && x < (xp + wd)) && (y >= yp && y < (yp + ht));`
`if(collIn) return inBox;`
`bool onBorder = (x == xp || y == yp) || (x == (xp + wd - 1) || y == (yp + wd - 1));`
`return onBorder;` -/
def Box.inColl (s : Box) (x y : Nat) : Bool :=
  let inBox := (decide (x ≥ s.xp) && decide (x < s.xp + s.wd)) &&
    (decide (y ≥ s.yp) && decide (y < s.yp + s.ht))
  if s.collIn then inBox
  else
    (decide (x = s.xp) || decide (y = s.yp)) ||
      (decide ((x : Int) = (s.xp : Int) + (s.wd : Int) - 1) ||
       decide ((y : Int) = (s.yp : Int) + (s.wd : Int) - 1))

/-- `Box::inChars`: as `Box::inColl`, with `fill` in place of `collIn`. -/
def Box.inChars (s : Box) (x y : Nat) : Bool :=
  let inBox := (decide (x ≥ s.xp) && decide (x < s.xp + s.wd)) &&
    (decide (y ≥ s.yp) && decide (y < s.yp + s.ht))
  if s.fill then inBox
  else
    (decide (x = s.xp) || decide (y = s.yp)) ||
      (decide ((x : Int) = (s.xp : Int) + (s.wd : Int) - 1) ||
       decide ((y : Int) = (s.yp : Int) + (s.wd : Int) - 1))

/-- Inner loop of the filled branch of `Box::write`, in column `i`:
`for(unsigned short j=y; j<y+ht; j++) if(i < xMax && j < yMax) chars[i][j] = chr;` -/
def Box.writeFillCol (s : Box) (xMax yMax y i : Nat) : Nat → Nat → Except Err (List Store)
  | 0, _ => .error .outOfFuel
  | fuel + 1, j =>
    if (j : Int) < (y : Int) + (s.ht : Int) then do
      let rest ← Box.writeFillCol s xMax yMax y i fuel ((j + 1) % 65536)
      pure ((if i < xMax ∧ j < yMax then [(⟨i, j, s.chr⟩ : Store)] else []) ++ rest)
    else pure []

/-- Outer loop of the filled branch of `Box::write`:
`for(unsigned short i=x; i<x+wd; i++)` around the column loop, which gets
`inner` units of fuel each time. -/
def Box.writeFill (s : Box) (xMax yMax x y inner : Nat) : Nat → Nat → Except Err (List Store)
  | 0, _ => .error .outOfFuel
  | fuel + 1, i =>
    if (i : Int) < (x : Int) + (s.wd : Int) then do
      let col ← Box.writeFillCol s xMax yMax y i inner y
      let rest ← Box.writeFill s xMax yMax x y inner fuel ((i + 1) % 65536)
      pure (col ++ rest)
    else pure []

/-- First loop of the outline branch of `Box::write` (horizontal edges):
`for(unsigned short i=x; i<x+wd; i++) {`
`if(i < xMax && y < yMax) chars[i][y] = chr;`
`if(i < xMax && y+ht-1 < yMax) chars[i][y+ht-1] = chr; }` -/
def Box.writeHoriz (s : Box) (xMax yMax x y : Nat) : Nat → Nat → Except Err (List Store)
  | 0, _ => .error .outOfFuel
  | fuel + 1, i =>
    if (i : Int) < (x : Int) + (s.wd : Int) then do
      let rest ← Box.writeHoriz s xMax yMax x y fuel ((i + 1) % 65536)
      pure ((if i < xMax ∧ y < yMax then [(⟨i, y, s.chr⟩ : Store)] else []) ++
        (if i < xMax ∧ (y : Int) + (s.ht : Int) - 1 < (yMax : Int)
          then [(⟨i, (y : Int) + (s.ht : Int) - 1, s.chr⟩ : Store)] else []) ++ rest)
    else pure []

/-- Second loop of the outline branch of `Box::write` (vertical edges):
`for(unsigned short j=y; j<y+ht; j++) {`
`if(x < xMax && j < yMax) chars[x][j] = chr;`
`if(x+wd-1 < xMax && j < yMax) chars[x+wd-1][j] = chr; }` -/
def Box.writeVert (s : Box) (xMax yMax x y : Nat) : Nat → Nat → Except Err (List Store)
  | 0, _ => .error .outOfFuel
  | fuel + 1, j =>
    if (j : Int) < (y : Int) + (s.ht : Int) then do
      let rest ← Box.writeVert s xMax yMax x y fuel ((j + 1) % 65536)
      pure ((if x < xMax ∧ j < yMax then [(⟨x, j, s.chr⟩ : Store)] else []) ++
        (if (x : Int) + (s.wd : Int) - 1 < (xMax : Int) ∧ j < yMax
          then [(⟨(x : Int) + (s.wd : Int) - 1, j, s.chr⟩ : Store)] else []) ++ rest)
    else pure []

/-- `Box::write`: the stores it performs, each loop running on `fuel`. -/
def Box.write (s : Box) (fuel xo yo xMax yMax : Nat) : Except Err (List Store) :=
  let x := (s.xp + xo) % 65536
  let y := (s.yp + yo) % 65536
  if s.fill then Box.writeFill s xMax yMax x y fuel fuel x
  else do
    let horiz ← Box.writeHoriz s xMax yMax x y fuel x
    let vert ← Box.writeVert s xMax yMax x y fuel y
    pure (horiz ++ vert)

/-- The guarded write of the `draw` methods:
`if(win.inBounds(x, y)) win.writeAtNR(x, y, chr);` -/
def ASCIIWindow.drawCell (win : ASCIIWindow) (x y chr : Nat) : Except Err ASCIIWindow :=
  if win.inBounds x y then win.writeAtNR x y chr else .ok win

/-- Inner loop of the filled branch of `Box::draw`, in column `i`:
`for(unsigned short j=y; j<y+ht; j++) if(win.inBounds(i, j)) win.writeAtNR(i, j, chr);` -/
def Box.drawFillCol (s : Box) (y i : Nat) : Nat → Nat → ASCIIWindow → Except Err ASCIIWindow
  | 0, _, _ => .error .outOfFuel
  | fuel + 1, j, win =>
    if (j : Int) < (y : Int) + (s.ht : Int) then do
      let win1 ← win.drawCell i j s.chr
      Box.drawFillCol s y i fuel ((j + 1) % 65536) win1
    else pure win

/-- Outer loop of the filled branch of `Box::draw`. -/
def Box.drawFill (s : Box) (x y inner : Nat) : Nat → Nat → ASCIIWindow → Except Err ASCIIWindow
  | 0, _, _ => .error .outOfFuel
  | fuel + 1, i, win =>
    if (i : Int) < (x : Int) + (s.wd : Int) then do
      let win1 ← Box.drawFillCol s y i inner y win
      Box.drawFill s x y inner fuel ((i + 1) % 65536) win1
    else pure win

/-- First loop of the outline branch of `Box::draw` (horizontal edges):
`if(win.inBounds(i, y)) win.writeAtNR(i, y, chr);`
`if(win.inBounds(i, y+ht-1)) win.writeAtNR(i, y+ht-1, chr);`
where the `int` value `y+ht-1` is converted to the `unsigned short`
parameter. -/
def Box.drawHoriz (s : Box) (x y : Nat) : Nat → Nat → ASCIIWindow → Except Err ASCIIWindow
  | 0, _, _ => .error .outOfFuel
  | fuel + 1, i, win =>
    if (i : Int) < (x : Int) + (s.wd : Int) then do
      let win1 ← win.drawCell i y s.chr
      let win2 ← win1.drawCell i (toU16 ((y : Int) + (s.ht : Int) - 1)) s.chr
      Box.drawHoriz s x y fuel ((i + 1) % 65536) win2
    else pure win

/-- Second loop of the outline branch of `Box::draw` (vertical edges):
`if(win.inBounds(x, j)) win.writeAtNR(x, j, chr);`
`if(win.inBounds(x+wd-1, j)) win.writeAtNR(x+wd-1, j, chr);` -/
def Box.drawVert (s : Box) (x y : Nat) : Nat → Nat → ASCIIWindow → Except Err ASCIIWindow
  | 0, _, _ => .error .outOfFuel
  | fuel + 1, j, win =>
    if (j : Int) < (y : Int) + (s.ht : Int) then do
      let win1 ← win.drawCell x j s.chr
      let win2 ← win1.drawCell (toU16 ((x : Int) + (s.wd : Int) - 1)) j s.chr
      Box.drawVert s x y fuel ((j + 1) % 65536) win2
    else pure win

/-- `Box::draw`, each loop running on `fuel`. -/
def Box.draw (s : Box) (fuel : Nat) (win : ASCIIWindow) (xo yo : Nat) : Except Err ASCIIWindow :=
  let x := (s.xp + xo) % 65536
  let y := (s.yp + yo) % 65536
  if s.fill then Box.drawFill s x y fuel fuel x win
  else do
    let win1 ← Box.drawHoriz s x y fuel x win
    Box.drawVert s x y fuel y win1

/-! ## `CharStruct` and `CharStructGroup` -/

/-- The class hierarchy under `CharStruct`.  `plain` is an object of the
base class itself, `storedGrid` one of `StoredGrid` (which overrides only
`type`); `group` is a `CharStructGroup` with its own inherited `collCode`,
`xp`, `yp` and its `structs` vector. -/
inductive CharStruct where
  | plain (collCode xp yp : Nat)
  | collChar (s : CollChar)
  | line (s : Line)
  | box (s : Box)
  | storedGrid (collCode xp yp : Nat)
  | group (collCode xp yp : Nat) (structs : List CharStruct)

/-- `CharStruct::collisionCode`. -/
def CharStruct.collisionCode : CharStruct → Nat
  | .plain c _ _ => c
  | .collChar s => s.collCode
  | .line s => s.collCode
  | .box s => s.collCode
  | .storedGrid c _ _ => c
  | .group c _ _ _ => c

/-- The loop of `CharStructGroup::inColl`, where `call c` is
`structs[i] -> inColl(x, y)`:
`for(unsigned short i=0; i<structs.size(); i++)`
`if(structs[i] -> inColl(x, y)) return true;`
`return false;` -/
def CharStructGroup.inCollLoop (call : CharStruct → Except Err Bool)
    (structs : List CharStruct) : Nat → Nat → Except Err Bool
  | 0, _ => .error .outOfFuel
  | fuel + 1, i =>
    if h : i < structs.length then
      match call structs[i] with
      | .error e => .error e
      | .ok true => .ok true
      | .ok false => CharStructGroup.inCollLoop call structs fuel ((i + 1) % 65536)
    else .ok false

/-- Virtual `inColl`: the override of the object class.  `CharStruct` and
`StoredGrid` use the base `return false;`. -/
def CharStruct.inColl (fuel : Nat) (s : CharStruct) (x y : Nat) : Except Err Bool :=
  match s with
  | .plain _ _ _ => .ok false
  | .collChar c => .ok (c.inColl x y)
  | .line l => .ok (l.inColl x y)
  | .box b => .ok (b.inColl x y)
  | .storedGrid _ _ _ => .ok false
  | .group _ _ _ structs =>
    match fuel with
    | 0 => .error .outOfFuel
    | fuel + 1 =>
      CharStructGroup.inCollLoop (fun c => CharStruct.inColl fuel c x y) structs (fuel + 1) 0

/-- The loop of `CharStructGroup::charAt`, where `call c` is
`structs[i] -> charAt(x, y)`:
`for(unsigned short i=0; i<structs.size(); i++) {`
`unsigned char chr = structs[i] -> charAt(x, y); if(chr != 0) return chr; }`
`return 0;` -/
def CharStructGroup.charAtLoop (call : CharStruct → Except Err Nat)
    (structs : List CharStruct) : Nat → Nat → Except Err Nat
  | 0, _ => .error .outOfFuel
  | fuel + 1, i =>
    if h : i < structs.length then
      match call structs[i] with
      | .error e => .error e
      | .ok chr =>
        if chr ≠ 0 then .ok chr
        else CharStructGroup.charAtLoop call structs fuel ((i + 1) % 65536)
    else .ok 0

/-- Virtual `charAt`.  Only `CollChar`, `Line` and `CharStructGroup`
override it; `Box`, `StoredGrid` and `CharStruct` itself use the base
`return 0;`. -/
def CharStruct.charAt (fuel : Nat) (s : CharStruct) (x y : Nat) : Except Err Nat :=
  match s with
  | .plain _ _ _ => .ok 0
  | .collChar c => .ok (c.charAt x y)
  | .line l => .ok (l.charAt x y)
  | .box _ => .ok 0
  | .storedGrid _ _ _ => .ok 0
  | .group _ _ _ structs =>
    match fuel with
    | 0 => .error .outOfFuel
    | fuel + 1 =>
      CharStructGroup.charAtLoop (fun c => CharStruct.charAt fuel c x y) structs (fuel + 1) 0

/-- The loop of `CharStructGroup::write`, where `call c` is
`structs[i] -> write(chars, xo, yo, xMax, yMax)`:
`for(unsigned short i=0; i<structs.size(); i++) structs[i] -> write(...);` -/
def CharStructGroup.writeLoop (call : CharStruct → Except Err (List Store))
    (structs : List CharStruct) : Nat → Nat → Except Err (List Store)
  | 0, _ => .error .outOfFuel
  | fuel + 1, i =>
    if h : i < structs.length then do
      let here ← call structs[i]
      let rest ← CharStructGroup.writeLoop call structs fuel ((i + 1) % 65536)
      pure (here ++ rest)
    else pure []

/-- Virtual `write`: the stores performed.  `CharStruct` and `StoredGrid`
use the empty base body. -/
def CharStruct.write (fuel : Nat) (s : CharStruct) (xo yo xMax yMax : Nat) :
    Except Err (List Store) :=
  match s with
  | .plain _ _ _ => .ok []
  | .collChar c => .ok (c.write xo yo xMax yMax)
  | .line l => .ok (l.write xo yo xMax yMax)
  | .box b => b.write fuel xo yo xMax yMax
  | .storedGrid _ _ _ => .ok []
  | .group _ _ _ structs =>
    match fuel with
    | 0 => .error .outOfFuel
    | fuel + 1 =>
      CharStructGroup.writeLoop (fun c => CharStruct.write fuel c xo yo xMax yMax)
        structs (fuel + 1) 0

/-- The loop of `CharStructGroup::draw`, where `call c win` is
`structs[i] -> draw(win, xo, yo)`. -/
def CharStructGroup.drawLoop (call : CharStruct → ASCIIWindow → Except Err ASCIIWindow)
    (structs : List CharStruct) : Nat → Nat → ASCIIWindow → Except Err ASCIIWindow
  | 0, _, _ => .error .outOfFuel
  | fuel + 1, i, win =>
    if h : i < structs.length then do
      let win1 ← call structs[i] win
      CharStructGroup.drawLoop call structs fuel ((i + 1) % 65536) win1
    else pure win

/-- Virtual `draw`.  `CharStruct` and `StoredGrid` use the empty base body. -/
def CharStruct.draw (fuel : Nat) (s : CharStruct) (win : ASCIIWindow) (xo yo : Nat) :
    Except Err ASCIIWindow :=
  match s with
  | .plain _ _ _ => .ok win
  | .collChar c => c.draw win xo yo
  | .line l => l.draw win xo yo
  | .box b => b.draw fuel win xo yo
  | .storedGrid _ _ _ => .ok win
  | .group _ _ _ structs =>
    match fuel with
    | 0 => .error .outOfFuel
    | fuel + 1 =>
      CharStructGroup.drawLoop (fun c w => CharStruct.draw fuel c w xo yo)
        structs (fuel + 1) 0 win

/-! ## `CharDisplay` -/

/-- An element of `vector<CharStruct *> structs`: the pointer value and the
object behind it. -/
structure StructPtr where
  addr : Nat
  obj : CharStruct

/-- Class `CharDisplay`.  `winChars x y` is the content of `winChars[x][y]`;
only `0 <= x < w`, `0 <= y < h` is allocated by `initChars`.  The window
pointer `win` is passed to the methods that use it. -/
structure CharDisplay where
  w : Nat
  h : Nat
  xo : Nat
  yo : Nat
  xs : Nat
  ys : Nat
  up : Bool
  winChars : Int → Int → Nat
  structs : List StructPtr

/-- The stores of the nested loops shared by `initChars` and `clear`:
`for(i = 0; i < w; i++) for(j = 0; j < h; j++) winChars[i][j] = 32;`
(32 is the space character). -/
def blankStores (w h : Nat) : List Store :=
  (List.range w).flatMap fun i => (List.range h).map fun j => (⟨i, j, 32⟩ : Store)

/-- The constructor `CharDisplay(width, height, xOffset, yOffset, window)`;
`mem` is the content of the memory the buffer is allocated in. -/
def CharDisplay.new (width height xOffset yOffset : Nat) (mem : Int → Int → Nat) :
    CharDisplay where
  w := width
  h := height
  xo := xOffset
  yo := yOffset
  xs := 0
  ys := 0
  up := true
  winChars := applyStores (blankStores width height) mem
  structs := []

/-- `CharDisplay::structCt`: `structs.size()` returned as `unsigned short`. -/
def CharDisplay.structCt (d : CharDisplay) : Nat := d.structs.length % 65536

/-- `CharDisplay::charAt`: `return winChars[x][y];` -/
def CharDisplay.charAt (d : CharDisplay) (x y : Nat) : Nat := d.winChars x y

/-- `CharDisplay::dlx`: `return w + xo;` as `unsigned short`. -/
def CharDisplay.dlx (d : CharDisplay) : Nat := (d.w + d.xo) % 65536

/-- `CharDisplay::dly`: `return h + yo;` as `unsigned short`. -/
def CharDisplay.dly (d : CharDisplay) : Nat := (d.h + d.yo) % 65536

/-- `CharDisplay::dx`: `return xs + xo;` as `unsigned short`. -/
def CharDisplay.dx (d : CharDisplay) : Nat := (d.xs + d.xo) % 65536

/-- `CharDisplay::dy`: `return ys + yo;` as `unsigned short`. -/
def CharDisplay.dy (d : CharDisplay) : Nat := (d.ys + d.yo) % 65536

/-- `CharDisplay::scrollX`: `xs += chrCt;` with `chrCt` a `short`. -/
def CharDisplay.scrollX (d : CharDisplay) (chrCt : Int) : CharDisplay :=
  { d with xs := toU16 ((d.xs : Int) + chrCt) }

/-- `CharDisplay::scrollY`: `ys += chrCt;` with `chrCt` a `short`. -/
def CharDisplay.scrollY (d : CharDisplay) (chrCt : Int) : CharDisplay :=
  { d with ys := toU16 ((d.ys : Int) + chrCt) }

/-- `CharDisplay::addStruct`: `structs.push_back(ptr);` -/
def CharDisplay.addStruct (d : CharDisplay) (ptr : StructPtr) : CharDisplay :=
  { d with structs := d.structs ++ [ptr] }

/-- The loop condition of `CharDisplay::hasCollCode` at index `i`:
`structs[i] -> collisionCode() == code && structs[i] -> inColl(x, y)`. -/
def CharDisplay.hasCollCodeAt (structs : List StructPtr) (fuel x y code i : Nat) :
    Except Err Bool :=
  if h : i < structs.length then
    if structs[i].obj.collisionCode = code then structs[i].obj.inColl fuel x y
    else .ok false
  else .error .vectorRange

/-- The loop of `CharDisplay::hasCollCode` from index `i` on:
`for(...; i < 65535; i--) if(...) return true;` followed by `return false;`.
At `i = 0` the decrement wraps to `65535`, which ends the loop. -/
def CharDisplay.hasCollCodeLoop (structs : List StructPtr) (fuel x y code : Nat) :
    Nat → Except Err Bool
  | 0 => CharDisplay.hasCollCodeAt structs fuel x y code 0
  | i + 1 =>
    if i + 1 < 65535 then
      match CharDisplay.hasCollCodeAt structs fuel x y code (i + 1) with
      | .error e => .error e
      | .ok true => .ok true
      | .ok false => CharDisplay.hasCollCodeLoop structs fuel x y code i
    else .ok false

/-- `CharDisplay::hasCollCode`; the counter starts at
`unsigned short i = structs.size() - 1`. -/
def CharDisplay.hasCollCode (d : CharDisplay) (fuel x y code : Nat) : Except Err Bool :=
  CharDisplay.hasCollCodeLoop d.structs fuel x y code (toU16 ((d.structs.length : Int) - 1))

/-- The loop body of `CharDisplay::writeStructs` at index `i`:
`structs[i] -> write(winChars, dx(), dy(), dlx(), dly());` -/
def CharDisplay.writeStructAt (d : CharDisplay) (fuel i : Nat) : Except Err (List Store) :=
  if h : i < d.structs.length then d.structs[i].obj.write fuel d.dx d.dy d.dlx d.dly
  else .error .vectorRange

/-- The loop of `CharDisplay::writeStructs` from index `i` on:
`for(...; i < 65535; i--) structs[i] -> write(...);`
At `i = 0` the decrement wraps to `65535`, which ends the loop. -/
def CharDisplay.writeStructsLoop (d : CharDisplay) (fuel : Nat) : Nat → Except Err (List Store)
  | 0 => d.writeStructAt fuel 0
  | i + 1 =>
    if i + 1 < 65535 then do
      let here ← d.writeStructAt fuel (i + 1)
      let rest ← CharDisplay.writeStructsLoop d fuel i
      pure (here ++ rest)
    else pure []

/-- The stores performed by `CharDisplay::writeStructs`, in program order;
the counter starts at `unsigned short i = structs.size() - 1`. -/
def CharDisplay.writeStructsStores (d : CharDisplay) (fuel : Nat) : Except Err (List Store) :=
  d.writeStructsLoop fuel (toU16 ((d.structs.length : Int) - 1))

/-- `CharDisplay::writeStructs`: the stores go to `winChars`, then
`up = false;`. -/
def CharDisplay.writeStructs (d : CharDisplay) (fuel : Nat) : Except Err CharDisplay := do
  let sts ← d.writeStructsStores fuel
  pure { d with winChars := applyStores sts d.winChars, up := false }

/-- `CharDisplay::clear`. -/
def CharDisplay.clear (d : CharDisplay) : CharDisplay :=
  { d with winChars := applyStores (blankStores d.w d.h) d.winChars, up := false }

/-- `CharDisplay::redrawStructs`: `clear(); writeStructs();` -/
def CharDisplay.redrawStructs (d : CharDisplay) (fuel : Nat) : Except Err CharDisplay :=
  d.clear.writeStructs fuel

/-- The stores of the calls `write(...)` made on the shapes of a list, the
last shape first: the stores of the loop of `writeStructs` over that list. -/
def CharDisplay.storesOf (call : StructPtr → Except Err (List Store))
    (l : List StructPtr) : Except Err (List Store) :=
  l.foldl (fun acc a => do
    let here ← call a
    let rest ← acc
    pure (here ++ rest)) (pure [])

/-- `CharDisplay::removeStruct(const unsigned short index)`:
`if(index > structs.size()) return false;`
`delete(structs[index]); structs.erase(structs.begin() + index); return true;`
The result is the returned flag and the display afterwards. -/
def CharDisplay.removeStruct (d : CharDisplay) (index : Nat) : Except Err (Bool × CharDisplay) :=
  if index > d.structs.length then .ok (false, d)
  else if index < d.structs.length then
    .ok (true, { d with structs := d.structs.eraseIdx index })
  else .error .vectorRange

/-- The loop of `CharDisplay::removeStruct(const CharStruct* ptr)`:
`for(unsigned short i=0; i<structs.size(); i++)`
`if(ptr == structs[i]) { delete(structs[i]); structs.erase(structs.begin() + i); }`
The state of the loop is the vector. -/
def CharDisplay.removePtrLoop (ptr : Nat) : Nat → Nat → List StructPtr →
    Except Err (List StructPtr)
  | 0, _, _ => .error .outOfFuel
  | fuel + 1, i, structs =>
    if h : i < structs.length then
      if ptr = structs[i].addr then
        CharDisplay.removePtrLoop ptr fuel ((i + 1) % 65536) (structs.eraseIdx i)
      else CharDisplay.removePtrLoop ptr fuel ((i + 1) % 65536) structs
    else .ok structs

/-- `CharDisplay::removeStruct(const CharStruct* ptr)`: the loop, then
`return false;`.  The result is the returned flag and the display
afterwards. -/
def CharDisplay.removeStructPtr (d : CharDisplay) (fuel ptr : Nat) :
    Except Err (Bool × CharDisplay) := do
  let structs ← CharDisplay.removePtrLoop ptr fuel 0 d.structs
  pure (false, { d with structs := structs })

/-- `CharDisplay::getPtr`: `if(index > structs.size()) return NULL;`
`return structs[index];`  `none` is `NULL`. -/
def CharDisplay.getPtr (d : CharDisplay) (index : Nat) : Except Err (Option StructPtr) :=
  if index > d.structs.length then .ok none
  else if h : index < d.structs.length then .ok (some d.structs[index])
  else .error .vectorRange

/-- `CharDisplay::popStruct(const unsigned int index)`:
`if(index > structs.size()) return NULL;`
`CharStruct* ptr = structs[index]; structs.erase(structs.begin() + index); return ptr;`
The result is the returned pointer (`none` is `NULL`) and the display
afterwards. -/
def CharDisplay.popStruct (d : CharDisplay) (index : Nat) :
    Except Err (Option StructPtr × CharDisplay) :=
  if index > d.structs.length then .ok (none, d)
  else if h : index < d.structs.length then
    .ok (some d.structs[index], { d with structs := d.structs.eraseIdx index })
  else .error .vectorRange

/-- The inner loop of `CharDisplay::update` in column `i`, with `n`
iterations left and `j` the counter:
`for(unsigned short j=0; j<h; j++) win -> writeAtNR(i, j, winChars[i][j]);` -/
def CharDisplay.updateCol (d : CharDisplay) (i : Nat) :
    Nat → Nat → ASCIIWindow → Except Err ASCIIWindow
  | 0, _, win => .ok win
  | n + 1, j, win =>
    match win.writeAtNR i j (d.winChars i j) with
    | .error e => .error e
    | .ok win1 => CharDisplay.updateCol d i n (j + 1) win1

/-- The outer loop of `CharDisplay::update`, with `n` iterations left and
`i` the counter: `for(unsigned short i=0; i<w; i++)` around the column
loop. -/
def CharDisplay.updateLoop (d : CharDisplay) : Nat → Nat → ASCIIWindow → Except Err ASCIIWindow
  | 0, _, win => .ok win
  | n + 1, i, win =>
    match CharDisplay.updateCol d i d.h 0 win with
    | .error e => .error e
    | .ok win1 => CharDisplay.updateLoop d n (i + 1) win1

/-- `CharDisplay::update`: when `up == false`, every buffer cell is written
to the window with `writeAtNR`, then `up = true;`.  The result is the
display and the window afterwards. -/
def CharDisplay.update (d : CharDisplay) (win : ASCIIWindow) :
    Except Err (CharDisplay × ASCIIWindow) :=
  if d.up = false then
    match CharDisplay.updateLoop d d.w 0 win with
    | .error e => .error e
    | .ok win1 => .ok ({ d with up := true }, win1)
  else .ok (d, win)

/-- Two outcomes of a redraw agree: both fail in the same way, or both
return and the two displays hold the same character in every cell of the
`w` by `h` buffer. -/
def CharDisplay.sameBuffer (r1 r2 : Except Err CharDisplay) : Prop :=
  match r1, r2 with
  | .ok a, .ok b => a.w = b.w ∧ a.h = b.h ∧ ∀ x y, x < a.w → y < a.h → a.charAt x y = b.charAt x y
  | .error e1, .error e2 => e1 = e2
  | _, _ => False

/-- The `structs` vector of a `CharStructGroup`; empty for the other
classes. -/
def CharStruct.children : CharStruct → List CharStruct
  | .group _ _ _ structs => structs
  | _ => []

/-! ## Size conditions on groups -/

mutual
/-- Every `CharStructGroup` in the object, at any nesting depth, holds at
most 65535 children, so that its `unsigned short` loop counters reach
`structs.size()`. -/
def CharStruct.sizesFit : CharStruct → Bool
  | .group _ _ _ structs => decide (structs.length ≤ 65535) && CharStruct.sizesFitAll structs
  | _ => true
/-- `CharStruct.sizesFit` for each element of a vector. -/
def CharStruct.sizesFitAll : List CharStruct → Bool
  | [] => true
  | c :: cs => c.sizesFit && CharStruct.sizesFitAll cs
end

mutual
/-- Nesting depth of groups. -/
def CharStruct.depth : CharStruct → Nat
  | .group _ _ _ structs => CharStruct.depthAll structs + 1
  | _ => 0
/-- The largest nesting depth in a vector. -/
def CharStruct.depthAll : List CharStruct → Nat
  | [] => 0
  | c :: cs => max c.depth (CharStruct.depthAll cs)
end

/-! ## The constructors of `Box` -/

/-- The full constructor
`Box(collision, charac, xPos, yPos, filled, collideInside, width, height)`. -/
def Box.new (collision charac xPos yPos : Nat) (filled collideInside : Bool)
    (width height : Nat) : Box where
  collCode := collision
  xp := xPos
  yp := yPos
  fill := filled
  collIn := collideInside
  chr := charac
  wd := width
  ht := height

/-- `Box(collision, charac, filled)`, which delegates to
`Box(collision, '0', 0, 0, filled, filled, 8, 8)`; 48 is the character `0`. -/
def Box.newFilled (collision charac : Nat) (filled : Bool) : Box :=
  let _ := charac
  Box.new collision 48 0 0 filled filled 8 8

/-- `Box(collision, xPos, yPos, charac, filled)`, which delegates to
`Box(collision, '0', xPos, yPos, filled, filled, 8, 8)`. -/
def Box.newAtFilled (collision xPos yPos charac : Nat) (filled : Bool) : Box :=
  let _ := charac
  Box.new collision 48 xPos yPos filled filled 8 8

/-- `Box(collision, charac, filled, collideInside)`, which delegates to
`Box(collision, '0', 0, 0, filled, collideInside, 8, 8)`. -/
def Box.newFilledColl (collision charac : Nat) (filled collideInside : Bool) : Box :=
  let _ := charac
  Box.new collision 48 0 0 filled collideInside 8 8

/-- `Box(collision, xPos, yPos, charac, filled, collideInside)`, which
delegates to `Box(collision, '0', xPos, yPos, filled, collideInside, 8, 8)`. -/
def Box.newAtFilledColl (collision xPos yPos charac : Nat) (filled collideInside : Bool) :
    Box :=
  let _ := charac
  Box.new collision 48 xPos yPos filled collideInside 8 8

/-- `Box(collision, charac, filled, width, height)`, which delegates to
`Box(collision, charac, 0, 0, filled, filled, width, height)`. -/
def Box.newSized (collision charac : Nat) (filled : Bool) (width height : Nat) : Box :=
  Box.new collision charac 0 0 filled filled width height

/-- `Box(collision, charac, xPos, yPos, filled, width, height)`, which
delegates to `Box(collision, charac, xPos, yPos, filled, filled, width, height)`. -/
def Box.newAtSized (collision charac xPos yPos : Nat) (filled : Bool) (width height : Nat) :
    Box :=
  Box.new collision charac xPos yPos filled filled width height

/-- `Box(collision, charac, filled, collideInside, width, height)`, which
delegates to `Box(collision, charac, 0, 0, filled, collideInside, width, height)`. -/
def Box.newSizedColl (collision charac : Nat) (filled collideInside : Bool)
    (width height : Nat) : Box :=
  Box.new collision charac 0 0 filled collideInside width height

/-! ## `Menu` (src/menu.cpp) -/

/-- Class `Menu`: the option count `opts` (an `unsigned char`) and the
cursor positions `opX`, `opY` of the options.  The `title` string is not
read by any method and is left out. -/
structure Menu where
  opts : Nat
  opX : List Nat
  opY : List Nat
  deriving DecidableEq, Repr

/-- The constructor `Menu()`: `opts = 0;` with empty vectors. -/
def Menu.new : Menu := ⟨0, [], []⟩

/-- `Menu::addEntry`:
`const unsigned char index = opts; opX.push_back(x); opY.push_back(y); return index;`
The result is the returned index and the menu afterwards. -/
def Menu.addEntry (m : Menu) (x y : Nat) : Nat × Menu :=
  let index := m.opts
  (index, { m with opX := m.opX ++ [x], opY := m.opY ++ [y] })

/-! ## The cells of a rectangle -/

/-- The cells a box is to paint when written with offset `(xo, yo)` and
bounds `(xMax, yMax)`: inside the bounds, inside the translated rectangle,
and on its border unless the box is filled. -/
def Box.paints (s : Box) (xo yo xMax yMax i j : Nat) : Prop :=
  i < xMax ∧ j < yMax ∧ s.xp + xo ≤ i ∧ i < s.xp + xo + s.wd ∧
    s.yp + yo ≤ j ∧ j < s.yp + yo + s.ht ∧
    (s.fill = false → i = s.xp + xo ∨ i = s.xp + xo + s.wd - 1 ∨
      j = s.yp + yo ∨ j = s.yp + yo + s.ht - 1)

/-! ## Concrete inputs -/

/-- Memory content before the buffer is initialised. -/
def Examples.mem0 : Int → Int → Nat := fun _ _ => 0

/-- Point A: address 1, collision code 1, at (3,3), glyph 65. -/
def Examples.pointA : StructPtr := ⟨1, .collChar ⟨1, 3, 3, 65⟩⟩

/-- Point B: address 2, collision code 2, at (3,3), glyph 66. -/
def Examples.pointB : StructPtr := ⟨2, .collChar ⟨2, 3, 3, 66⟩⟩

/-- A 5 by 5 display without offsets to which A, then B, were added. -/
def Examples.overlap : CharDisplay :=
  ((CharDisplay.new 5 5 0 0 Examples.mem0).addStruct Examples.pointA).addStruct Examples.pointB

/-- A 5 by 5 display holding A, a group (code 7) of two points, and B. -/
def Examples.grouped : CharDisplay :=
  (((CharDisplay.new 5 5 0 0 Examples.mem0).addStruct Examples.pointA).addStruct
    ⟨3, .group 7 0 0 [.collChar ⟨1, 3, 3, 67⟩, .collChar ⟨1, 4, 4, 68⟩]⟩).addStruct Examples.pointB

/-- A 5 by 5 display holding 65536 points, all with collision code 1 at
(3,3), at addresses 0 to 65535. -/
def Examples.crowded : CharDisplay :=
  { CharDisplay.new 5 5 0 0 Examples.mem0 with
    structs := (List.range 65536).map fun a => (⟨a, .collChar ⟨1, 3, 3, 65⟩⟩ : StructPtr) }

/-- An 8 by 8 outline box at (0,0) with `collIn = false`, glyph 35. -/
def Examples.outline8 : Box := ⟨1, 0, 0, false, false, 35, 8, 8⟩

/-- A 5 wide, 3 high outline box at (0,0) with `collIn = false`. -/
def Examples.outline5x3 : Box := ⟨1, 0, 0, false, false, 35, 5, 3⟩

/-- An 8 by 8 filled box at (0,0) with `collIn = true`, glyph 35. -/
def Examples.solid8 : Box := ⟨1, 0, 0, true, true, 35, 8, 8⟩

/-- The display of `src/xwanderwall.cpp`, `CharDisplay(80, 22, 0, 2, window)`,
holding one point at (0,21). -/
def Examples.offsetDisplay : CharDisplay :=
  (CharDisplay.new 80 22 0 2 Examples.mem0).addStruct ⟨1, .collChar ⟨1, 0, 21, 65⟩⟩

/-- A 10 by 10 window on a terminal of 80 columns and 24 lines, showing
spaces. -/
def Examples.window10 : ASCIIWindow := ⟨10, 10, 0, 0, 80, 24, fun _ _ => some 32⟩

/-- A point at (0,0) with glyph 65. -/
def Examples.origin : CollChar := ⟨1, 0, 0, 65⟩

/-- A 0 by 0 outline box at (2,2) with `collIn = false`. -/
def Examples.empty0 : Box := ⟨1, 2, 2, false, false, 35, 0, 0⟩

/-- A 3 wide, 0 high outline box at (0,0), glyph 35. -/
def Examples.flat3 : Box := ⟨1, 0, 0, false, false, 35, 3, 0⟩

/-- A 4 by 3 box at (2,1) with `collIn = true` that draws only its outline. -/
def Examples.area4x3 : Box := ⟨1, 2, 1, false, true, 35, 4, 3⟩

/-- A filled 1 by 1 box at (0,0), glyph 35. -/
def Examples.unitBox : Box := ⟨1, 0, 0, true, true, 35, 1, 1⟩

/-- A group of 65537 points: 65536 points at (9,9), then one at (3,3). -/
def Examples.hugeGroup : CharStruct :=
  .group 0 0 0 (List.replicate 65536 (.collChar ⟨0, 9, 9, 46⟩) ++ [.collChar ⟨0, 3, 3, 65⟩])

/-- A group holding a point at (3,3) and a nested group with a point at (4,4). -/
def Examples.nested : CharStruct :=
  .group 7 0 0 [.collChar ⟨1, 3, 3, 67⟩, .group 8 0 0 [.collChar ⟨1, 4, 4, 68⟩]]

/-- A 65535 by 1 display without offsets holding one point at (0,0),
glyph 65. -/
def Examples.wide : CharDisplay :=
  (CharDisplay.new 65535 1 0 0 Examples.mem0).addStruct ⟨1, .collChar ⟨1, 0, 0, 65⟩⟩

/-- A 5 by 5 display without offsets holding the filled 1 by 1 box at
(0,0). -/
def Examples.boxDisplay : CharDisplay :=
  (CharDisplay.new 5 5 0 0 Examples.mem0).addStruct ⟨1, .box Examples.unitBox⟩

/-- A 5 by 5 display holding one group with collision code 7 whose only
child is a point with collision code 1 at (3,3). -/
def Examples.groupOnly : CharDisplay :=
  (CharDisplay.new 5 5 0 0 Examples.mem0).addStruct
    ⟨1, .group 7 0 0 [.collChar ⟨1, 3, 3, 67⟩]⟩

/-- The display holding A and B after `clear()`: not yet flushed. -/
def Examples.cleared : CharDisplay := Examples.overlap.clear

/-- A filled 3 by 2 box at (1,1), glyph 35. -/
def Examples.solid3x2 : Box := ⟨1, 1, 1, true, true, 35, 3, 2⟩

/-- A horizontal line of length 5 at (2,1), glyph 45. -/
def Examples.dash5 : Line := ⟨1, 2, 1, 45, 5, false⟩

/-- A 10 by 10 window on a terminal of 80 columns and 24 lines, showing
spaces, cursor at (5,0). -/
def Examples.cursorAt5 : ASCIIWindow := ⟨10, 10, 5, 0, 80, 24, fun _ _ => some 32⟩

/-- The display holding A and B as `redrawStructs()` leaves it: B stored
first, then A; not yet flushed. -/
def Examples.redrawn : CharDisplay :=
  { Examples.overlap with
    winChars := applyStores [⟨3, 3, 66⟩, ⟨3, 3, 65⟩] Examples.overlap.clear.winChars
    up := false }

/-- A 2 by 2 display without offsets holding one point at (0,0) whose glyph
is 10, the newline character. -/
def Examples.newlinePoint : CharDisplay :=
  (CharDisplay.new 2 2 0 0 Examples.mem0).addStruct ⟨1, .collChar ⟨1, 0, 0, 10⟩⟩

/-- A 5 by 5 display without offsets holding a point at (1,1), glyph 65,
and a point at (4,4), glyph 66. -/
def Examples.twoPoints : CharDisplay :=
  ((CharDisplay.new 5 5 0 0 Examples.mem0).addStruct ⟨1, .collChar ⟨1, 1, 1, 65⟩⟩).addStruct
    ⟨2, .collChar ⟨2, 4, 4, 66⟩⟩

/-! ## Lemmas on the loops of `inColl` and `hasCollCode` -/

/-- Each element of a vector that fits, fits. -/
theorem CharStruct.sizesFit_of_mem {cs : List CharStruct} (h : CharStruct.sizesFitAll cs = true) :
    ∀ c ∈ cs, c.sizesFit = true := by
  induction cs with
  | nil => intro c hc; cases hc
  | cons a as ih =>
    simp only [CharStruct.sizesFitAll, Bool.and_eq_true] at h
    intro c hc
    rcases List.mem_cons.mp hc with rfl | hc
    · exact h.1
    · exact ih h.2 c hc

/-- An element is at most as deep as the vector it is in. -/
theorem CharStruct.depth_le_of_mem {cs : List CharStruct} :
    ∀ c ∈ cs, c.depth ≤ CharStruct.depthAll cs := by
  induction cs with
  | nil => intro c hc; cases hc
  | cons a as ih =>
    intro c hc
    simp only [CharStruct.depthAll]
    rcases List.mem_cons.mp hc with rfl | hc
    · exact le_max_left _ _
    · exact le_trans (ih c hc) (le_max_right _ _)

/-- With at most 65535 children whose calls all return, and enough fuel,
the group loop from index `i` returns whether some child from `i` on
collides. -/
theorem CharStructGroup.inCollLoop_eq_any (call : CharStruct → Except Err Bool)
    (f : CharStruct → Bool) (structs : List CharStruct) (hlen : structs.length ≤ 65535)
    (hcall : ∀ c ∈ structs, call c = .ok (f c)) :
    ∀ fuel i, i ≤ structs.length → structs.length - i < fuel →
      CharStructGroup.inCollLoop call structs fuel i = .ok ((structs.drop i).any f) := by
  intro fuel
  induction fuel with
  | zero => intro i _ h; omega
  | succ n ih =>
    intro i hi hf
    unfold CharStructGroup.inCollLoop
    by_cases h : i < structs.length
    · simp only [h, dite_true]
      have hd : structs.drop i = structs[i] :: structs.drop (i + 1) := by
        exact List.drop_eq_getElem_cons h
      rw [hcall _ (List.getElem_mem h), hd, List.any_cons]
      cases hfi : f structs[i]
      · have hmod : (i + 1) % 65536 = i + 1 := Nat.mod_eq_of_lt (by omega)
        simp only [hmod, Bool.false_or]
        exact ih (i + 1) (by omega) (by omega)
      · simp
    · have : i = structs.length := by omega
      subst this
      simp

/-- More fuel does not change a value returned by the group loop. -/
theorem CharStructGroup.inCollLoop_mono (call call1 : CharStruct → Except Err Bool)
    (structs : List CharStruct)
    (hcall : ∀ c b, call c = .ok b → call1 c = .ok b) :
    ∀ fuel i b, CharStructGroup.inCollLoop call structs fuel i = .ok b →
      CharStructGroup.inCollLoop call1 structs (fuel + 1) i = .ok b := by
  intro fuel
  induction fuel with
  | zero => intro i b h; simp [CharStructGroup.inCollLoop] at h
  | succ n ih =>
    intro i b h
    unfold CharStructGroup.inCollLoop at h ⊢
    by_cases hi : i < structs.length
    · simp only [hi, dite_true] at h ⊢
      cases hc : call structs[i] with
      | error e => rw [hc] at h; simp at h
      | ok v =>
        rw [hc] at h
        rw [hcall _ _ hc]
        cases v
        · exact ih _ _ h
        · exact h
    · simp only [hi, dite_false] at h ⊢
      exact h

/-- More fuel does not change a value returned by `inColl`. -/
theorem CharStruct.inColl_succ (x y : Nat) :
    ∀ fuel (s : CharStruct) (b : Bool), s.inColl fuel x y = .ok b →
      s.inColl (fuel + 1) x y = .ok b := by
  intro fuel
  induction fuel with
  | zero =>
    intro s b h
    cases s <;> simp_all [CharStruct.inColl]
  | succ n ih =>
    intro s b h
    cases s with
    | group c xp yp structs =>
      simp only [CharStruct.inColl] at h ⊢
      exact CharStructGroup.inCollLoop_mono _ _ structs (fun c v hv => ih c v hv) _ _ _ h
    | _ => simpa [CharStruct.inColl] using h

/-- A value returned by `inColl` is returned at every larger fuel. -/
theorem CharStruct.inColl_mono (x y : Nat) (s : CharStruct) (b : Bool) (fuel fuel1 : Nat)
    (hle : fuel ≤ fuel1) (h : s.inColl fuel x y = .ok b) : s.inColl fuel1 x y = .ok b := by
  induction hle with
  | refl => exact h
  | step _ ih => exact CharStruct.inColl_succ x y _ s b ih

/-- With enough fuel `inColl` returns on an object whose groups fit. -/
theorem CharStruct.inColl_returns (x y : Nat) :
    ∀ fuel (s : CharStruct), s.sizesFit = true → 65536 + s.depth ≤ fuel →
      ∃ b, s.inColl fuel x y = .ok b := by
  intro fuel
  induction fuel with
  | zero => intro s _ h; omega
  | succ n ih =>
    intro s hfit hfuel
    cases s with
    | group c xp yp structs =>
      simp only [CharStruct.sizesFit, Bool.and_eq_true, decide_eq_true_eq] at hfit
      simp only [CharStruct.depth] at hfuel
      have hchild : ∀ c ∈ structs, ∃ b, c.inColl n x y = .ok b := by
        intro c hc
        have hd := CharStruct.depth_le_of_mem c hc
        exact ih c (CharStruct.sizesFit_of_mem hfit.2 c hc) (by omega)
      let f : CharStruct → Bool := fun c =>
        match c.inColl n x y with
        | .ok b => b
        | .error _ => false
      have hcall : ∀ c ∈ structs, (fun c => CharStruct.inColl n c x y) c = .ok (f c) := by
        intro c hc
        obtain ⟨b, hb⟩ := hchild c hc
        simp only [f, hb]
      refine ⟨(structs.drop 0).any f, ?_⟩
      simp only [CharStruct.inColl]
      exact CharStructGroup.inCollLoop_eq_any _ f structs hfit.1 hcall (n + 1) 0
        (Nat.zero_le _) (by omega)
    | _ => simp [CharStruct.inColl]

/-- At a valid index whose `inColl` call returns, the loop condition of
`hasCollCode` returns, and is true exactly when the code matches and the
shape collides. -/
theorem CharDisplay.hasCollCodeAt_spec (structs : List StructPtr) (fuel x y code j : Nat)
    (hj : j < structs.length) (hret : ∃ b, structs[j].obj.inColl fuel x y = .ok b) :
    ∃ v, CharDisplay.hasCollCodeAt structs fuel x y code j = .ok v ∧
      (v = true ↔ structs[j].obj.collisionCode = code ∧
        structs[j].obj.inColl fuel x y = .ok true) := by
  obtain ⟨b, hb⟩ := hret
  unfold CharDisplay.hasCollCodeAt
  simp only [hj, dite_true]
  by_cases hc : structs[j].obj.collisionCode = code
  · refine ⟨b, ?_, ?_⟩
    · simp [hc, hb]
    · rw [hb]
      constructor
      · intro hv; exact ⟨hc, by rw [hv]⟩
      · rintro ⟨_, hv⟩; exact Except.ok.inj hv
  · refine ⟨false, ?_, ?_⟩
    · simp [hc]
    · constructor
      · intro hv; cases hv
      · rintro ⟨h1, _⟩; exact absurd h1 hc

/-- From a valid index `i` below 65535 the loop of `hasCollCode` visits the
indices `i, ..., 0`: it returns true exactly when one of them matches. -/
theorem CharDisplay.hasCollCodeLoop_spec (structs : List StructPtr) (fuel x y code : Nat)
    (hret : ∀ e ∈ structs, ∃ b, e.obj.inColl fuel x y = .ok b) :
    ∀ i, i < structs.length → i < 65535 →
      ∃ v, CharDisplay.hasCollCodeLoop structs fuel x y code i = .ok v ∧
        (v = true ↔ ∃ j, ∃ h : j < structs.length, j ≤ i ∧
          structs[j].obj.collisionCode = code ∧ structs[j].obj.inColl fuel x y = .ok true) := by
  intro i
  induction i with
  | zero =>
    intro hi _
    obtain ⟨v, hv, hiff⟩ := CharDisplay.hasCollCodeAt_spec structs fuel x y code 0 hi
      (hret _ (List.getElem_mem hi))
    refine ⟨v, by simpa [CharDisplay.hasCollCodeLoop] using hv, ?_⟩
    rw [hiff]
    constructor
    · intro h; exact ⟨0, hi, le_refl _, h⟩
    · rintro ⟨j, hj, hle, h⟩
      have : j = 0 := by omega
      subst this
      exact h
  | succ n ih =>
    intro hi h16
    obtain ⟨v, hv, hiff⟩ := CharDisplay.hasCollCodeAt_spec structs fuel x y code (n + 1) hi
      (hret _ (List.getElem_mem hi))
    obtain ⟨r, hr, hriff⟩ := ih (by omega) (by omega)
    unfold CharDisplay.hasCollCodeLoop
    simp only [h16, if_true, hv]
    cases v with
    | true =>
      refine ⟨true, rfl, ?_⟩
      simp only [true_iff]
      exact ⟨n + 1, hi, le_refl _, hiff.mp rfl⟩
    | false =>
      refine ⟨r, hr, ?_⟩
      rw [hriff]
      constructor
      · rintro ⟨j, hj, hle, h⟩
        exact ⟨j, hj, by omega, h⟩
      · rintro ⟨j, hj, hle, h⟩
        by_cases hjn : j = n + 1
        · subst hjn
          have := hiff.mpr h
          cases this
        · exact ⟨j, hj, by omega, h⟩

/-- When `inColl` returns at `fuel`, it is true at some fuel exactly when it
is true at `fuel`. -/
theorem CharStruct.inColl_true_iff (x y : Nat) (s : CharStruct) (fuel : Nat)
    (hret : ∃ b, s.inColl fuel x y = .ok b) :
    (∃ fuel1, s.inColl fuel1 x y = .ok true) ↔ s.inColl fuel x y = .ok true := by
  constructor
  · rintro ⟨fuel1, h1⟩
    obtain ⟨b, hb⟩ := hret
    have e1 := CharStruct.inColl_mono x y s true fuel1 (max fuel fuel1) (le_max_right _ _) h1
    have e2 := CharStruct.inColl_mono x y s b fuel (max fuel fuel1) (le_max_left _ _) hb
    rw [e1] at e2
    rw [hb, ← Except.ok.inj e2]
  · intro h; exact ⟨fuel, h⟩

/-- With at most 65535 shapes whose `inColl` calls return at `fuel`,
`hasCollCode` returns at `fuel`, true exactly when some shape matches. -/
theorem CharDisplay.hasCollCode_spec (d : CharDisplay) (x y code fuel : Nat)
    (hlen : d.structs.length ≤ 65535)
    (hret : ∀ e ∈ d.structs, ∃ b, e.obj.inColl fuel x y = .ok b) :
    ∃ v, d.hasCollCode fuel x y code = .ok v ∧
      (v = true ↔ ∃ e ∈ d.structs, e.obj.collisionCode = code ∧
        ∃ fuel1, e.obj.inColl fuel1 x y = .ok true) := by
  unfold CharDisplay.hasCollCode
  by_cases hempty : d.structs.length = 0
  · have hnil : d.structs = [] := List.length_eq_zero.mp hempty
    refine ⟨false, ?_, ?_⟩
    · rw [hempty]
      have : toU16 (((0 : Nat) : Int) - 1) = 65534 + 1 := by decide
      rw [this, CharDisplay.hasCollCodeLoop]
      simp
    · simp [hnil]
  · have hstart : toU16 ((d.structs.length : Int) - 1) = d.structs.length - 1 := by
      unfold toU16
      omega
    rw [hstart]
    obtain ⟨v, hv, hiff⟩ := CharDisplay.hasCollCodeLoop_spec d.structs fuel x y code hret
      (d.structs.length - 1) (by omega) (by omega)
    refine ⟨v, hv, ?_⟩
    rw [hiff]
    constructor
    · rintro ⟨j, hj, _, hc, hin⟩
      exact ⟨d.structs[j], List.getElem_mem hj, hc, fuel, hin⟩
    · rintro ⟨e, he, hc, hin⟩
      obtain ⟨j, hj, rfl⟩ := List.getElem_of_mem he
      exact ⟨j, hj, by omega, hc,
        (CharStruct.inColl_true_iff x y _ fuel (hret _ he)).mp hin⟩

/-! ## The claims -/

/-- C1 (code defect): the claim says that after `redrawStructs()` a shared
cell shows the glyph of the last-inserted shape.  `writeStructs` walks the
vector from the last index down to 0, so the first-inserted shape is
written last: with A (glyph 65) then B (glyph 66) added at (3,3),
`charAt(3,3)` is 65 after the redraw, although B has glyph 66 there. -/
theorem redrawStructs_shows_first_inserted :
    (Examples.overlap.redrawStructs 0).map (fun d => d.charAt 3 3) = .ok 65 ∧
      Examples.pointB.obj.charAt 0 3 3 = .ok 66 := by
  decide

/-- C2 (as stated, refuted): with 65536 shapes the `unsigned short` counter
of `hasCollCode` starts at 65535, the loop body never runs and the call
returns false, although a shape with the queried code collides at the
queried cell. -/
theorem hasCollCode_false_at_65536_shapes :
    Examples.crowded.hasCollCode 0 3 3 1 = .ok false ∧
      ∃ e ∈ Examples.crowded.structs,
        e.obj.collisionCode = 1 ∧ e.obj.inColl 0 3 3 = .ok true := by
  constructor
  · have hlen : Examples.crowded.structs.length = 65536 := by
      simp [Examples.crowded]
    have hstart : toU16 (((65536 : Nat) : Int) - 1) = 65534 + 1 := by decide
    unfold CharDisplay.hasCollCode
    rw [hlen, hstart, CharDisplay.hasCollCodeLoop]
    simp
  · refine ⟨⟨0, .collChar ⟨1, 3, 3, 65⟩⟩, ?_, rfl, rfl⟩
    simp only [Examples.crowded]
    exact List.mem_map.mpr ⟨0, List.mem_range.mpr (by omega), rfl⟩

/-- C2 (amended): for every display holding at most 65535 shapes in which
every group, at any nesting depth, holds at most 65535 children, and every
query `(x, y, code)`: `hasCollCode` returns (for every sufficient fuel, the
same value), and it returns true if and only if some shape of the
collection has `collisionCode()` equal to `code` and `inColl(x, y)` true.
Neither the buffer nor the other shapes on the cell enter the statement. -/
theorem hasCollCode_iff_exists (d : CharDisplay) (x y code : Nat)
    (hlen : d.structs.length ≤ 65535)
    (hfit : ∀ e ∈ d.structs, e.obj.sizesFit = true) :
    ∃ b fuel0, (∀ fuel, fuel0 ≤ fuel → d.hasCollCode fuel x y code = .ok b) ∧
      (b = true ↔ ∃ e ∈ d.structs, e.obj.collisionCode = code ∧
        ∃ fuel, e.obj.inColl fuel x y = .ok true) := by
  have hret : ∀ fuel, 65536 + CharStruct.depthAll (d.structs.map StructPtr.obj) ≤ fuel →
      ∀ e ∈ d.structs, ∃ b, e.obj.inColl fuel x y = .ok b := by
    intro fuel hfuel e he
    have hd := CharStruct.depth_le_of_mem e.obj (List.mem_map_of_mem StructPtr.obj he)
    exact CharStruct.inColl_returns x y fuel e.obj (hfit e he) (by omega)
  obtain ⟨b, hb, hiff⟩ := CharDisplay.hasCollCode_spec d x y code _ hlen (hret _ (le_refl _))
  refine ⟨b, 65536 + CharStruct.depthAll (d.structs.map StructPtr.obj), ?_, hiff⟩
  intro fuel hfuel
  obtain ⟨v, hv, hviff⟩ := CharDisplay.hasCollCode_spec d x y code fuel hlen (hret fuel hfuel)
  have : v = b := by
    have hvb : v = true ↔ b = true := hviff.trans hiff.symm
    cases v <;> cases b <;> simp at hvb ⊢
  rw [hv, this]

/-- C2, instance of the amended statement: the display holding A, a group
and B, queried at (3,3) for code 7. -/
theorem hasCollCode_iff_exists_witness :
    Examples.grouped.structs.length ≤ 65535 ∧
      (∀ e ∈ Examples.grouped.structs, e.obj.sizesFit = true) ∧
      ∃ b fuel0, (∀ fuel, fuel0 ≤ fuel → Examples.grouped.hasCollCode fuel 3 3 7 = .ok b) ∧
        (b = true ↔ ∃ e ∈ Examples.grouped.structs, e.obj.collisionCode = 7 ∧
          ∃ fuel, e.obj.inColl fuel 3 3 = .ok true) :=
  ⟨by decide, by decide,
    hasCollCode_iff_exists Examples.grouped 3 3 7 (by decide) (by decide)⟩

/-- C3 (code defect): the claim confines outline collision to the border
cells of the rectangle.  The outline branch of `Box::inColl` does not use
`inBox`: the 8 by 8 outline box at (0,0) collides at (0,100), a cell whose
row is outside the rectangle. -/
theorem Box_inColl_outline_outside_rectangle :
    Examples.outline8.inColl 0 100 = true ∧
      ¬ (100 < Examples.outline8.yp + Examples.outline8.ht) := by
  decide

/-- C4 (code defect): the claim says every border cell of an outline
rectangle collides.  `Box::inColl` tests `y == yp + wd - 1` where the bottom
edge is at `yp + ht - 1`: for the 5 wide, 3 high outline box at (0,0) the
bottom-edge cell (2,2) does not collide. -/
theorem Box_inColl_misses_bottom_edge :
    Examples.outline5x3.inColl 2 2 = false ∧
      (2 = Examples.outline5x3.yp + Examples.outline5x3.ht - 1 ∧
        Examples.outline5x3.xp ≤ 2 ∧ 2 ≤ Examples.outline5x3.xp + Examples.outline5x3.wd - 1) := by
  decide

/-- C5 (code defect): the claim says every cell written by `writeStructs`
lies inside the `w` by `h` buffer.  The bounds passed to `write` are
`w + xo` and `h + yo`: on the 80 by 22 display with view offset (0,2), a
point at (0,21) is stored at `winChars[0][23]`, and 23 is not below the
height 22. -/
theorem writeStructs_stores_outside_buffer :
    Examples.offsetDisplay.writeStructsStores 0 = .ok [⟨0, 23, 65⟩] ∧
      ¬ ((23 : Int) < (Examples.offsetDisplay.h : Int)) := by
  decide

/-- C6 (code defect): the claim says `inBounds(x, y)` holds exactly when
`x < wd` and `y < ht`.  The body is `x < wd || y < ht`: on a 10 by 10 window
`inBounds(3, 65535)` is true although 65535 is not below the height. -/
theorem inBounds_accepts_wrapped_coordinate :
    Examples.window10.inBounds 3 65535 = true ∧ ¬ (65535 < Examples.window10.ht) := by
  decide

/-- C7 (code defect): the claim says `draw` never raises the bounds error
of the sink.  Because `inBounds` accepts a cell with only one coordinate in
range, drawing the point at (0,0) with offset (0,20) on a 10 by 10 window
calls `writeAtNR(0, 20, chr)`, which throws `WindowError`. -/
theorem CollChar_draw_throws :
    Examples.origin.draw Examples.window10 0 20 = .error .windowError := by
  rfl

/-- C8 (code defect): the claim says `charAt` returns the glyph where
`inColl` is true, also for a `Box`.  `Box` does not override `charAt` and
inherits `return 0;`: the solid 8 by 8 box with glyph 35 collides at (0,0)
and its `charAt(0,0)` is 0. -/
theorem Box_charAt_returns_zero :
    CharStruct.charAt 0 (.box Examples.solid8) 0 0 = .ok 0 ∧
      CharStruct.inColl 0 (.box Examples.solid8) 0 0 = .ok true ∧
      Examples.solid8.chr = 35 := by
  decide

/-- C9 (code defect): the claim says `removeStruct(index)` returns false and
`popStruct(index)` returns null for every `index >= structCt()`, without
touching the vector.  The guards are `index > structs.size()`: with two
shapes, index 2 passes the guard and `structs[2]` is accessed out of
range in both methods. -/
theorem removeStruct_popStruct_at_size :
    Examples.overlap.structCt = 2 ∧
      Examples.overlap.removeStruct 2 = .error .vectorRange ∧
      Examples.overlap.popStruct 2 = .error .vectorRange :=
  ⟨rfl, rfl, rfl⟩

/-- C10 (code defect): the claim says `removeStruct(ptr)` returns true when
the pointer is in the collection.  The loop erases the element and falls
through to `return false;`: removing A (address 1) from the display holding
A and B leaves only B (address 2) and returns false. -/
theorem removeStructPtr_found_returns_false :
    (Examples.overlap.removeStructPtr 3 1).map
        (fun r => (r.1, r.2.structs.map StructPtr.addr)) = .ok (false, [2]) := by
  decide


/-! ## Lemmas on stores, redraws and loops that do not end -/

/-- The content of a cell after a sequence of stores depends on the content
before only at that cell. -/
theorem applyStores_congr (sts : List Store) (x y : Int) :
    ∀ b1 b2 : Int → Int → Nat, b1 x y = b2 x y →
      applyStores sts b1 x y = applyStores sts b2 x y := by
  induction sts with
  | nil => intro b1 b2 h; exact h
  | cons st rest ih =>
    intro b1 b2 h
    simp only [applyStores, List.foldl_cons]
    apply ih
    simp only [Store.apply, h]

/-- Stores that all carry the character `c`, one of them at `(x, y)`, leave
`c` at `(x, y)`. -/
theorem applyStores_const (c : Nat) (x y : Int) (sts : List Store)
    (hall : ∀ st ∈ sts, st.c = c) (hex : ∃ st ∈ sts, st.x = x ∧ st.y = y) :
    ∀ b : Int → Int → Nat, applyStores sts b x y = c := by
  induction sts with
  | nil => obtain ⟨st, hst, _⟩ := hex; cases hst
  | cons st rest ih =>
    intro b
    simp only [applyStores, List.foldl_cons]
    by_cases hrest : ∃ st1 ∈ rest, st1.x = x ∧ st1.y = y
    · exact ih (fun s hs => hall s (List.mem_cons_of_mem _ hs)) hrest _
    · have hhere : st.x = x ∧ st.y = y := by
        obtain ⟨s, hs, hxy⟩ := hex
        rcases List.mem_cons.mp hs with rfl | hs
        · exact hxy
        · exact absurd ⟨s, hs, hxy⟩ hrest
      have hkeep : ∀ (l : List Store), (∀ s ∈ l, s.c = c) →
          ∀ b1 : Int → Int → Nat, b1 x y = c → applyStores l b1 x y = c := by
        intro l
        induction l with
        | nil => intro _ b1 h; exact h
        | cons s l ihl =>
          intro hl b1 h
          simp only [applyStores, List.foldl_cons]
          apply ihl (fun t ht => hl t (List.mem_cons_of_mem _ ht))
          simp only [Store.apply]
          split
          · exact hl s (List.mem_cons_self _ _)
          · exact h
      apply hkeep rest (fun s hs => hall s (List.mem_cons_of_mem _ hs))
      simp only [Store.apply, hhere.1, hhere.2, and_self, if_true]
      exact hall st (List.mem_cons_self _ _)

/-- The stores of `clear` are exactly the cells of the `w` by `h` buffer. -/
theorem mem_blankStores (w h : Nat) (st : Store) :
    st ∈ blankStores w h ↔ ∃ i j : Nat, i < w ∧ j < h ∧ st = ⟨i, j, 32⟩ := by
  simp only [blankStores, List.mem_flatMap, List.mem_map, List.mem_range, List.bind_eq_flatMap,
    List.pure_def, List.mem_singleton]
  constructor
  · rintro ⟨i, hi, _, ⟨j, hj, rfl⟩, rfl⟩; exact ⟨i, j, hi, hj, rfl⟩
  · rintro ⟨i, j, hi, hj, rfl⟩; exact ⟨i, hi, j, ⟨j, hj, rfl⟩, rfl⟩

/-- After `clear` every cell of the buffer holds a space. -/
theorem CharDisplay.clear_charAt (d : CharDisplay) (x y : Nat) (hx : x < d.w) (hy : y < d.h) :
    d.clear.winChars x y = 32 := by
  simp only [CharDisplay.clear]
  apply applyStores_const 32
  · intro st hst
    obtain ⟨i, j, _, _, rfl⟩ := (mem_blankStores _ _ _).mp hst
    rfl
  · exact ⟨⟨x, y, 32⟩, (mem_blankStores _ _ _).mpr ⟨x, y, hx, hy, rfl⟩, rfl, rfl⟩

/-- The stores of `writeStructs` depend on the display only through the
collection, the offsets and the size. -/
theorem CharDisplay.writeStructsStores_congr (d1 d2 : CharDisplay) (fuel : Nat)
    (hs : d1.structs = d2.structs) (hw : d1.w = d2.w) (hh : d1.h = d2.h)
    (hxo : d1.xo = d2.xo) (hyo : d1.yo = d2.yo) (hxs : d1.xs = d2.xs) (hys : d1.ys = d2.ys) :
    d1.writeStructsStores fuel = d2.writeStructsStores fuel := by
  have hat : ∀ i, d1.writeStructAt fuel i = d2.writeStructAt fuel i := by
    intro i
    simp only [CharDisplay.writeStructAt, CharDisplay.dx, CharDisplay.dy, CharDisplay.dlx,
      CharDisplay.dly, hs, hw, hh, hxo, hyo, hxs, hys]
  have hloop : ∀ i, d1.writeStructsLoop fuel i = d2.writeStructsLoop fuel i := by
    intro i
    induction i with
    | zero => simp only [CharDisplay.writeStructsLoop, hat]
    | succ n ih => simp only [CharDisplay.writeStructsLoop, hat, ih]
  simp only [CharDisplay.writeStructsStores, hloop, hs]

/-- Two displays with the same collection, size and offsets redraw to the
same buffer, whatever their buffers held before. -/
theorem CharDisplay.redrawStructs_sameBuffer (d1 d2 : CharDisplay) (fuel : Nat)
    (hs : d1.structs = d2.structs) (hw : d1.w = d2.w) (hh : d1.h = d2.h)
    (hxo : d1.xo = d2.xo) (hyo : d1.yo = d2.yo) (hxs : d1.xs = d2.xs) (hys : d1.ys = d2.ys) :
    CharDisplay.sameBuffer (d1.redrawStructs fuel) (d2.redrawStructs fuel) := by
  have hst : d1.clear.writeStructsStores fuel = d2.clear.writeStructsStores fuel :=
    CharDisplay.writeStructsStores_congr d1.clear d2.clear fuel hs hw hh hxo hyo hxs hys
  simp only [CharDisplay.redrawStructs, CharDisplay.writeStructs, hst]
  cases hr : d2.clear.writeStructsStores fuel with
  | error e => simp [CharDisplay.sameBuffer, bind, Except.bind]
  | ok sts =>
    simp only [CharDisplay.sameBuffer, bind, Except.bind, pure, Except.pure]
    refine ⟨hw, hh, ?_⟩
    intro x y hx hy
    simp only [CharDisplay.charAt]
    apply applyStores_congr
    rw [CharDisplay.clear_charAt d1 x y hx hy,
      CharDisplay.clear_charAt d2 x y (hw ▸ hx) (hh ▸ hy)]

/-- With 65536 or more children, none of the first 65536 colliding, the
group loop never leaves: the counter wraps from 65535 to 0. -/
theorem CharStructGroup.inCollLoop_diverges (call : CharStruct → Except Err Bool)
    (structs : List CharStruct) (hlen : 65536 ≤ structs.length)
    (hcall : ∀ i (h : i < structs.length), i < 65536 → call structs[i] = .ok false) :
    ∀ fuel i, i < 65536 →
      CharStructGroup.inCollLoop call structs fuel i = .error .outOfFuel := by
  intro fuel
  induction fuel with
  | zero => intro i _; rfl
  | succ n ih =>
    intro i hi
    have hlt : i < structs.length := by omega
    unfold CharStructGroup.inCollLoop
    simp only [hlt, dite_true, hcall i hlt hi]
    exact ih _ (Nat.mod_lt _ (by decide))

/-- The column loop of `Box::write` fails only by running out of fuel. -/
theorem Box.writeFillCol_error (s : Box) (xMax yMax y i : Nat) :
    ∀ fuel j e, Box.writeFillCol s xMax yMax y i fuel j = .error e → e = .outOfFuel := by
  intro fuel
  induction fuel with
  | zero => intro j e h; simp [Box.writeFillCol] at h; exact h.symm
  | succ n ih =>
    intro j e h
    unfold Box.writeFillCol at h
    split at h
    · cases hr : Box.writeFillCol s xMax yMax y i n ((j + 1) % 65536) with
      | error e1 =>
        rw [hr] at h
        simp only [bind, Except.bind] at h
        cases h
        exact ih _ _ hr
      | ok v =>
        rw [hr] at h
        simp [bind, Except.bind, pure, Except.pure] at h
    · simp [pure, Except.pure] at h

/-- When `x + wd` exceeds 65535 the outer loop of the filled branch of
`Box::write` never ends: its `unsigned short` counter stays below the bound. -/
theorem Box.writeFill_diverges (s : Box) (xMax yMax x y inner : Nat)
    (hwide : 65536 ≤ x + s.wd) :
    ∀ fuel i, i < 65536 →
      Box.writeFill s xMax yMax x y inner fuel i = .error .outOfFuel := by
  intro fuel
  induction fuel with
  | zero => intro i _; rfl
  | succ n ih =>
    intro i hi
    have hcond : (i : Int) < (x : Int) + (s.wd : Int) := by omega
    unfold Box.writeFill
    simp only [hcond, if_true]
    cases hc : Box.writeFillCol s xMax yMax y i inner y with
    | error e =>
      simp only [bind, Except.bind]
      rw [Box.writeFillCol_error s xMax yMax y i _ _ _ hc]
    | ok col =>
      simp only [bind, Except.bind, ih _ (Nat.mod_lt _ (by decide))]

/-- A display returned by `writeStructs` holds the same collection. -/
theorem CharDisplay.writeStructs_structs (d d1 : CharDisplay) (fuel : Nat)
    (h : d.writeStructs fuel = .ok d1) : d1.structs = d.structs := by
  unfold CharDisplay.writeStructs at h
  cases hs : d.writeStructsStores fuel with
  | error e => rw [hs] at h; simp [bind, Except.bind] at h
  | ok sts =>
    rw [hs] at h
    simp only [bind, Except.bind, pure, Except.pure, Except.ok.injEq] at h
    rw [← h]

/-- A display returned by `update` holds the same collection. -/
theorem CharDisplay.update_structs (d d1 : CharDisplay) (win win1 : ASCIIWindow)
    (h : d.update win = .ok (d1, win1)) : d1.structs = d.structs := by
  unfold CharDisplay.update at h
  split at h
  · split at h
    · cases h
    · simp only [Except.ok.injEq, Prod.mk.injEq] at h
      rw [← h.1]
  · simp only [Except.ok.injEq, Prod.mk.injEq] at h
    rw [← h.1]

/-! ## Clipping: shapes outside the bounds store nothing -/

/-- A point whose translated cell is outside the bounds stores nothing. -/
theorem CollChar_write_clipped (s : CollChar) (xo yo xMax yMax : Nat)
    (hx : s.xp + xo ≤ 65535) (hy : s.yp + yo ≤ 65535)
    (hout : xMax ≤ s.xp + xo ∨ yMax ≤ s.yp + yo) :
    s.write xo yo xMax yMax = [] := by
  have h1 : (s.xp + xo) % 65536 = s.xp + xo := Nat.mod_eq_of_lt (by omega)
  have h2 : (s.yp + yo) % 65536 = s.yp + yo := Nat.mod_eq_of_lt (by omega)
  simp only [CollChar.write, h1, h2]
  rw [if_neg (by omega)]

/-- The loop of `Line::write` stores nothing when each of the `n` cells
from `(x, y)` on is outside the bounds and none of them wraps around. -/
theorem Line.writeLoop_clipped (s : Line) (xMax yMax : Nat) :
    ∀ n x y,
      (∀ k, k < n → (if s.vert = true then y + k else x + k) ≤ 65535) →
      (∀ k, k < n → if s.vert = true then xMax ≤ x ∨ yMax ≤ y + k else xMax ≤ x + k ∨ yMax ≤ y) →
      Line.writeLoop s xMax yMax n x y = [] := by
  intro n
  induction n with
  | zero => intro x y _ _; rfl
  | succ n ih =>
    intro x y hfit hout
    have h0 := hout 0 (Nat.zero_lt_succ _)
    cases hv : s.vert
    · simp only [hv, Bool.false_eq_true, if_false, Nat.add_zero] at h0 hfit hout ih ⊢
      simp only [Line.writeLoop, hv, Bool.false_eq_true, if_false]
      rw [if_neg (by omega), List.nil_append]
      cases n with
      | zero => rfl
      | succ m =>
        have h1 := hfit 1 (by omega)
        have hmod : (x + 1) % 65536 = x + 1 := Nat.mod_eq_of_lt (by omega)
        rw [hmod]
        apply ih
        · intro k hk
          have := hfit (k + 1) (by omega)
          omega
        · intro k hk
          have := hout (k + 1) (by omega)
          omega
    · simp only [hv, if_true] at h0 hfit hout ih ⊢
      simp only [Line.writeLoop, hv, if_true]
      rw [if_neg (by omega), List.nil_append]
      cases n with
      | zero => rfl
      | succ m =>
        have h1 := hfit 1 (by omega)
        have hmod : (y + 1) % 65536 = y + 1 := Nat.mod_eq_of_lt (by omega)
        rw [hmod]
        apply ih
        · intro k hk
          have := hfit (k + 1) (by omega)
          omega
        · intro k hk
          have := hout (k + 1) (by omega)
          omega

/-- A line all of whose translated cells are outside the bounds, none of
them beyond 65535, stores nothing. -/
theorem Line_write_clipped (s : Line) (xo yo xMax yMax : Nat)
    (hx : s.xp + xo ≤ 65535) (hy : s.yp + yo ≤ 65535)
    (hfit : ∀ k, k < s.len →
      (if s.vert = true then s.yp + yo + k else s.xp + xo + k) ≤ 65535)
    (hout : ∀ k, k < s.len →
      if s.vert = true then xMax ≤ s.xp + xo ∨ yMax ≤ s.yp + yo + k
      else xMax ≤ s.xp + xo + k ∨ yMax ≤ s.yp + yo) :
    s.write xo yo xMax yMax = [] := by
  have h1 : (xo + s.xp) % 65536 = s.xp + xo := by
    rw [Nat.add_comm]; exact Nat.mod_eq_of_lt (by omega)
  have h2 : (yo + s.yp) % 65536 = s.yp + yo := by
    rw [Nat.add_comm]; exact Nat.mod_eq_of_lt (by omega)
  simp only [Line.write, h1, h2]
  exact Line.writeLoop_clipped s xMax yMax s.len _ _ hfit hout

/-- The column loop of the filled branch stores nothing when it ends below
65536 and each of its cells is outside the bounds. -/
theorem Box.writeFillCol_clipped (s : Box) (xMax yMax y i : Nat) (hfit : y + s.ht ≤ 65535)
    (hout : ∀ j, y ≤ j → j < y + s.ht → xMax ≤ i ∨ yMax ≤ j) :
    ∀ fuel j, y ≤ j → j ≤ y + s.ht → y + s.ht - j < fuel →
      Box.writeFillCol s xMax yMax y i fuel j = .ok [] := by
  intro fuel
  induction fuel with
  | zero => intro j _ _ h; omega
  | succ n ih =>
    intro j hyj hj hf
    unfold Box.writeFillCol
    by_cases hc : (j : Int) < (y : Int) + (s.ht : Int)
    · have hmod : (j + 1) % 65536 = j + 1 := Nat.mod_eq_of_lt (by omega)
      have hcell := hout j hyj (by omega)
      simp only [hc, if_true, hmod, ih (j + 1) (by omega) (by omega) (by omega), bind,
        Except.bind, pure, Except.pure]
      rw [if_neg (by omega)]
      rfl
    · simp only [hc, if_false, pure, Except.pure]

/-- The outer loop of the filled branch stores nothing when the rectangle
ends below 65536 in both directions and each of its cells is outside the
bounds. -/
theorem Box.writeFill_clipped (s : Box) (xMax yMax x y inner : Nat)
    (hfitx : x + s.wd ≤ 65535) (hfity : y + s.ht ≤ 65535) (hinner : s.ht < inner)
    (hout : ∀ i j, x ≤ i → i < x + s.wd → y ≤ j → j < y + s.ht → xMax ≤ i ∨ yMax ≤ j) :
    ∀ fuel i, x ≤ i → i ≤ x + s.wd → x + s.wd - i < fuel →
      Box.writeFill s xMax yMax x y inner fuel i = .ok [] := by
  intro fuel
  induction fuel with
  | zero => intro i _ _ h; omega
  | succ n ih =>
    intro i hxi hi hf
    unfold Box.writeFill
    by_cases hc : (i : Int) < (x : Int) + (s.wd : Int)
    · have hmod : (i + 1) % 65536 = i + 1 := Nat.mod_eq_of_lt (by omega)
      have hcol := Box.writeFillCol_clipped s xMax yMax y i hfity
        (fun j hj1 hj2 => hout i j hxi (by omega) hj1 hj2) inner y (le_refl _) (by omega)
        (by omega)
      simp only [hc, if_true, hmod, hcol, ih (i + 1) (by omega) (by omega) (by omega), bind,
        Except.bind, pure, Except.pure]
      rfl
    · simp only [hc, if_false, pure, Except.pure]

/-- The horizontal-edge loop of the outline branch stores nothing when it
ends below 65536 and each cell of the two edges is outside the bounds. -/
theorem Box.writeHoriz_clipped (s : Box) (xMax yMax x y : Nat) (hfit : x + s.wd ≤ 65535)
    (hht : 1 ≤ s.ht)
    (hout : ∀ i, x ≤ i → i < x + s.wd →
      (xMax ≤ i ∨ yMax ≤ y) ∧ (xMax ≤ i ∨ yMax ≤ y + s.ht - 1)) :
    ∀ fuel i, x ≤ i → i ≤ x + s.wd → x + s.wd - i < fuel →
      Box.writeHoriz s xMax yMax x y fuel i = .ok [] := by
  intro fuel
  induction fuel with
  | zero => intro i _ _ h; omega
  | succ n ih =>
    intro i hxi hi hf
    unfold Box.writeHoriz
    by_cases hc : (i : Int) < (x : Int) + (s.wd : Int)
    · have hmod : (i + 1) % 65536 = i + 1 := Nat.mod_eq_of_lt (by omega)
      have hcell := hout i hxi (by omega)
      simp only [hc, if_true, hmod, ih (i + 1) (by omega) (by omega) (by omega), bind,
        Except.bind, pure, Except.pure]
      rw [if_neg (by omega), if_neg (by omega)]
      rfl
    · simp only [hc, if_false, pure, Except.pure]

/-- The vertical-edge loop of the outline branch stores nothing when it
ends below 65536 and each cell of the two edges is outside the bounds. -/
theorem Box.writeVert_clipped (s : Box) (xMax yMax x y : Nat) (hfit : y + s.ht ≤ 65535)
    (hwd : 1 ≤ s.wd)
    (hout : ∀ j, y ≤ j → j < y + s.ht →
      (xMax ≤ x ∨ yMax ≤ j) ∧ (xMax ≤ x + s.wd - 1 ∨ yMax ≤ j)) :
    ∀ fuel j, y ≤ j → j ≤ y + s.ht → y + s.ht - j < fuel →
      Box.writeVert s xMax yMax x y fuel j = .ok [] := by
  intro fuel
  induction fuel with
  | zero => intro j _ _ h; omega
  | succ n ih =>
    intro j hyj hj hf
    unfold Box.writeVert
    by_cases hc : (j : Int) < (y : Int) + (s.ht : Int)
    · have hmod : (j + 1) % 65536 = j + 1 := Nat.mod_eq_of_lt (by omega)
      have hcell := hout j hyj (by omega)
      simp only [hc, if_true, hmod, ih (j + 1) (by omega) (by omega) (by omega), bind,
        Except.bind, pure, Except.pure]
      rw [if_neg (by omega), if_neg (by omega)]
      rfl
    · simp only [hc, if_false, pure, Except.pure]

/-- A box of width and height at least 1 whose translated rectangle ends
below 65536 in both directions, and all of whose drawn cells (every cell
when filled, the border cells otherwise) are outside the bounds, returns
without a store, given fuel above its width and height. -/
theorem Box_write_clipped (s : Box) (fuel xo yo xMax yMax : Nat)
    (hwd : 1 ≤ s.wd) (hht : 1 ≤ s.ht)
    (hfitx : s.xp + xo + s.wd ≤ 65535) (hfity : s.yp + yo + s.ht ≤ 65535)
    (hfw : s.wd < fuel) (hfh : s.ht < fuel)
    (hout : ∀ i j, s.xp + xo ≤ i → i < s.xp + xo + s.wd → s.yp + yo ≤ j →
      j < s.yp + yo + s.ht →
      (s.fill = true ∨ i = s.xp + xo ∨ i = s.xp + xo + s.wd - 1 ∨
        j = s.yp + yo ∨ j = s.yp + yo + s.ht - 1) →
      xMax ≤ i ∨ yMax ≤ j) :
    s.write fuel xo yo xMax yMax = .ok [] := by
  have h1 : (s.xp + xo) % 65536 = s.xp + xo := Nat.mod_eq_of_lt (by omega)
  have h2 : (s.yp + yo) % 65536 = s.yp + yo := Nat.mod_eq_of_lt (by omega)
  unfold Box.write
  simp only [h1, h2]
  cases hfill : s.fill
  · have hh := Box.writeHoriz_clipped s xMax yMax (s.xp + xo) (s.yp + yo) hfitx hht
      (fun i hi1 hi2 =>
        ⟨hout i (s.yp + yo) hi1 hi2 (le_refl _) (by omega) (Or.inr (Or.inr (Or.inr (Or.inl rfl)))),
         hout i (s.yp + yo + s.ht - 1) hi1 hi2 (by omega) (by omega)
          (Or.inr (Or.inr (Or.inr (Or.inr rfl))))⟩)
      fuel (s.xp + xo) (le_refl _) (by omega) (by omega)
    have hv := Box.writeVert_clipped s xMax yMax (s.xp + xo) (s.yp + yo) hfity hwd
      (fun j hj1 hj2 =>
        ⟨hout (s.xp + xo) j (le_refl _) (by omega) hj1 hj2 (Or.inr (Or.inl rfl)),
         hout (s.xp + xo + s.wd - 1) j (by omega) (by omega) hj1 hj2
          (Or.inr (Or.inr (Or.inl rfl)))⟩)
      fuel (s.yp + yo) (le_refl _) (by omega) (by omega)
    simp only [Bool.false_eq_true, if_false, hh, hv, bind, Except.bind, pure, Except.pure]
    rfl
  · simp only [if_true]
    exact Box.writeFill_clipped s xMax yMax (s.xp + xo) (s.yp + yo) fuel hfitx hfity hfh
      (fun i j hi1 hi2 hj1 hj2 => hout i j hi1 hi2 hj1 hj2 (Or.inl hfill))
      fuel (s.xp + xo) (le_refl _) (by omega) (by omega)

/-! ## Claims C11 to C20 -/

/-- C11: for every display and every index `i < structCt()`, `popStruct(i)`
returns the pointer stored at index `i`; the collection afterwards is the
original with element `i` erased (the others in their order) and
`structCt()` is one less; and a following `redrawStructs()` gives the same
buffer as on any display of the same size and offsets whose collection is
the original without that element, whatever its buffer held. -/
theorem popStruct_transfers_shape (d : CharDisplay) (i : Nat) (hi : i < d.structCt) :
    ∃ e d1, d.popStruct i = .ok (some e, d1) ∧ d.structs[i]? = some e ∧
      d1.structs = d.structs.eraseIdx i ∧ d1.structCt + 1 = d.structCt ∧
      ∀ d2 : CharDisplay, d2.structs = d.structs.eraseIdx i → d2.w = d.w → d2.h = d.h →
        d2.xo = d.xo → d2.yo = d.yo → d2.xs = d.xs → d2.ys = d.ys →
        ∀ fuel, CharDisplay.sameBuffer (d1.redrawStructs fuel) (d2.redrawStructs fuel) := by
  have hlt : i < d.structs.length := by
    unfold CharDisplay.structCt at hi
    exact lt_of_lt_of_le hi (Nat.mod_le _ _)
  refine ⟨d.structs[i], { d with structs := d.structs.eraseIdx i }, ?_, ?_, rfl, ?_, ?_⟩
  · simp [CharDisplay.popStruct, hlt, Nat.not_lt.mpr (Nat.le_of_lt hlt)]
  · simp [hlt]
  · unfold CharDisplay.structCt at hi ⊢
    simp only [List.length_eraseIdx, hlt, if_true]
    omega
  · intro d2 hs hw hh hxo hyo hxs hys fuel
    exact CharDisplay.redrawStructs_sameBuffer _ d2 fuel hs.symm hw.symm hh.symm hxo.symm
      hyo.symm hxs.symm hys.symm

/-- C11, instance: popping index 1 of the display holding A and B. -/
theorem popStruct_transfers_shape_witness :
    1 < Examples.overlap.structCt ∧
      ∃ e d1, Examples.overlap.popStruct 1 = .ok (some e, d1) ∧
        Examples.overlap.structs[1]? = some e ∧
        d1.structs = Examples.overlap.structs.eraseIdx 1 ∧
        d1.structCt + 1 = Examples.overlap.structCt ∧
        ∀ d2 : CharDisplay, d2.structs = Examples.overlap.structs.eraseIdx 1 →
          d2.w = Examples.overlap.w → d2.h = Examples.overlap.h →
          d2.xo = Examples.overlap.xo → d2.yo = Examples.overlap.yo →
          d2.xs = Examples.overlap.xs → d2.ys = Examples.overlap.ys →
          ∀ fuel, CharDisplay.sameBuffer (d1.redrawStructs fuel) (d2.redrawStructs fuel) :=
  ⟨by decide, popStruct_transfers_shape Examples.overlap 1 (by decide)⟩

/-- C12 (code defect): the claim says a box of width 0 or height 0 collides
nowhere.  With `collIn = false` the outline branch of `Box::inColl` returns
`x == xp || ...` without looking at the size: the 0 by 0 box at (2,2)
collides at (2,9). -/
theorem Box_inColl_zero_size_collides :
    Examples.empty0.inColl 2 9 = true ∧ Examples.empty0.wd = 0 ∧ Examples.empty0.ht = 0 := by
  decide

/-- C13 (code defect): the claim says a box of width 0 or height 0 writes no
cell.  The outline branch of `Box::write` runs its horizontal-edge loop
whatever the height: the 3 wide, 0 high outline box at (0,0), written with
bounds (10,10), stores its glyph at (0,0), (1,0), (2,0) and at the indices
(0,-1), (1,-1), (2,-1). -/
theorem Box_write_zero_height_stores :
    Examples.flat3.write 4 0 0 10 10 =
        .ok [⟨0, 0, 35⟩, ⟨0, -1, 35⟩, ⟨1, 0, 35⟩, ⟨1, -1, 35⟩, ⟨2, 0, 35⟩, ⟨2, -1, 35⟩] ∧
      Examples.flat3.ht = 0 := by
  decide

/-- C14: for every box with `collIn = true`, whatever `fill`, and every
`(x, y)`: `inColl(x, y)` is true if and only if `xp <= x < xp + wd` and
`yp <= y < yp + ht`, the sums taken in the natural numbers. -/
theorem Box_inColl_collideInside_iff (s : Box) (x y : Nat) (hc : s.collIn = true) :
    s.inColl x y = true ↔ (s.xp ≤ x ∧ x < s.xp + s.wd) ∧ (s.yp ≤ y ∧ y < s.yp + s.ht) := by
  simp [Box.inColl, hc]

/-- C14, instance: the 4 by 3 box at (2,1) with interior collision, at (3,2). -/
theorem Box_inColl_collideInside_iff_witness :
    Examples.area4x3.collIn = true ∧
      (Examples.area4x3.inColl 3 2 = true ↔
        (Examples.area4x3.xp ≤ 3 ∧ 3 < Examples.area4x3.xp + Examples.area4x3.wd) ∧
        (Examples.area4x3.yp ≤ 2 ∧ 2 < Examples.area4x3.yp + Examples.area4x3.ht)) :=
  ⟨rfl, Box_inColl_collideInside_iff Examples.area4x3 3 2 rfl⟩

/-- C15: for every line and every `(x, y)`: a horizontal line collides
exactly when `y = yp` and `xp <= x <= xp + len - 1`, a vertical one exactly
when `x = xp` and `yp <= y <= yp + len - 1`, the sums taken in the integers.
A line of length 0 collides nowhere, and a line of length 5 at (2,1)
collides on exactly the five listed cells, in either direction. -/
theorem Line_inColl_iff (s : Line) (x y : Nat) :
    (s.inColl x y = true ↔
      if s.vert = true then x = s.xp ∧ s.yp ≤ y ∧ (y : Int) ≤ (s.yp : Int) + (s.len : Int) - 1
      else y = s.yp ∧ s.xp ≤ x ∧ (x : Int) ≤ (s.xp : Int) + (s.len : Int) - 1) ∧
    Line.inColl ⟨s.collCode, s.xp, s.yp, s.chr, 0, s.vert⟩ x y = false ∧
    ((Line.inColl ⟨s.collCode, 2, 1, s.chr, 5, false⟩ x y = true ↔
        (x, y) ∈ [(2, 1), (3, 1), (4, 1), (5, 1), (6, 1)]) ∧
      (Line.inColl ⟨s.collCode, 2, 1, s.chr, 5, true⟩ x y = true ↔
        (x, y) ∈ [(2, 1), (2, 2), (2, 3), (2, 4), (2, 5)])) := by
  refine ⟨?_, ?_, ?_, ?_⟩
  · cases hv : s.vert <;> simp [Line.inColl, hv]
  · cases hv : s.vert <;> simp [Line.inColl] <;> omega
  · simp [Line.inColl]
    omega
  · simp [Line.inColl]
    omega

/-- C16: for every point and every `(x, y)`: `inColl(x, y)` is true if and
only if `x = xp` and `y = yp`; a point with another collision code and
another glyph at the same position gives the same answer. -/
theorem CollChar_inColl_iff (s : CollChar) (x y : Nat) :
    (s.inColl x y = true ↔ x = s.xp ∧ y = s.yp) ∧
      ∀ code chr : Nat, CollChar.inColl ⟨code, s.xp, s.yp, chr⟩ x y = s.inColl x y := by
  simp [CollChar.inColl]

/-- C17 (as stated, refuted): in the group of 65537 points the last child
collides at (3,3), but the `unsigned short` counter of
`CharStructGroup::inColl` wraps from 65535 to 0 and never reaches index
65536: for no fuel does `inColl(3,3)` return, so it is never true. -/
theorem Group_inColl_never_returns_at_65537_children :
    (∃ child ∈ Examples.hugeGroup.children, child.inColl 0 3 3 = .ok true) ∧
      ∀ fuel, Examples.hugeGroup.inColl fuel 3 3 = .error .outOfFuel := by
  constructor
  · refine ⟨.collChar ⟨0, 3, 3, 65⟩, ?_, rfl⟩
    unfold Examples.hugeGroup
    rw [CharStruct.children]
    exact List.mem_append_right _ (List.mem_singleton.mpr rfl)
  · intro fuel
    cases fuel with
    | zero =>
      unfold Examples.hugeGroup
      rw [CharStruct.inColl]
    | succ n =>
      unfold Examples.hugeGroup
      rw [CharStruct.inColl]
      apply CharStructGroup.inCollLoop_diverges
      · rw [List.length_append, List.length_replicate]
        exact Nat.le_add_right _ _
      · intro i h hi
        have hrep : i < (List.replicate 65536 (CharStruct.collChar ⟨0, 9, 9, 46⟩)).length := by
          rw [List.length_replicate]; exact hi
        rw [List.getElem_append_left hrep, List.getElem_replicate]
        rw [CharStruct.inColl]
        rfl
      · exact Nat.zero_lt_succ _

/-- C17 (amended): for every group in which every group, itself included
and at any nesting depth, holds at most 65535 children, and every `(x, y)`:
`inColl(x, y)` returns (for every sufficient fuel, the same value), and it
is true if and only if `inColl(x, y)` of at least one child is true; an
empty group collides nowhere. -/
theorem Group_inColl_iff_child (c xp yp : Nat) (structs : List CharStruct) (x y : Nat)
    (hfit : (CharStruct.group c xp yp structs).sizesFit = true) :
    ∃ b fuel0,
      (∀ fuel, fuel0 ≤ fuel → (CharStruct.group c xp yp structs).inColl fuel x y = .ok b) ∧
      (b = true ↔ ∃ child ∈ structs, ∃ fuel, child.inColl fuel x y = .ok true) ∧
      (structs = [] → b = false) := by
  simp only [CharStruct.sizesFit, Bool.and_eq_true, decide_eq_true_eq] at hfit
  obtain ⟨hlen, hall⟩ := hfit
  let n := 65536 + CharStruct.depthAll structs
  have hchild : ∀ ch ∈ structs, ∃ b, ch.inColl n x y = .ok b := by
    intro ch hch
    have hd := CharStruct.depth_le_of_mem ch hch
    exact CharStruct.inColl_returns x y n ch (CharStruct.sizesFit_of_mem hall ch hch)
      (by simp only [n]; omega)
  let f : CharStruct → Bool := fun ch =>
    match ch.inColl n x y with
    | .ok b => b
    | .error _ => false
  have hcall : ∀ ch ∈ structs, (fun ch => CharStruct.inColl n ch x y) ch = .ok (f ch) := by
    intro ch hch
    obtain ⟨b, hb⟩ := hchild ch hch
    simp only [f, hb]
  have hval : (CharStruct.group c xp yp structs).inColl (n + 1) x y = .ok (structs.any f) := by
    simp only [CharStruct.inColl]
    have := CharStructGroup.inCollLoop_eq_any _ f structs hlen hcall (n + 1) 0
      (Nat.zero_le _) (by simp only [n]; omega)
    simpa using this
  refine ⟨structs.any f, n + 1, ?_, ?_, ?_⟩
  · intro fuel hfuel
    exact CharStruct.inColl_mono x y _ _ (n + 1) fuel hfuel hval
  · rw [List.any_eq_true]
    constructor
    · rintro ⟨ch, hch, hf⟩
      obtain ⟨b, hb⟩ := hchild ch hch
      simp only [f, hb] at hf
      exact ⟨ch, hch, n, by rw [hb, hf]⟩
    · rintro ⟨ch, hch, hex⟩
      have htrue := (CharStruct.inColl_true_iff x y ch n (hchild ch hch)).mp hex
      exact ⟨ch, hch, by simp only [f, htrue]⟩
  · rintro rfl
    rfl

/-- C17, instance: the group holding a point and a nested group, at (4,4). -/
theorem Group_inColl_iff_child_witness :
    Examples.nested.sizesFit = true ∧
    ∃ b fuel0,
      (∀ fuel, fuel0 ≤ fuel → Examples.nested.inColl fuel 4 4 = .ok b) ∧
      (b = true ↔ ∃ child ∈ [CharStruct.collChar ⟨1, 3, 3, 67⟩,
          CharStruct.group 8 0 0 [.collChar ⟨1, 4, 4, 68⟩]],
        ∃ fuel, child.inColl fuel 4 4 = .ok true) ∧
      (([CharStruct.collChar ⟨1, 3, 3, 67⟩,
          CharStruct.group 8 0 0 [.collChar ⟨1, 4, 4, 68⟩]] : List CharStruct) = [] →
        b = false) :=
  ⟨by decide, Group_inColl_iff_child 7 0 0 _ 4 4 (by decide)⟩

/-- C18 (code defect): the claim says `write` returns, the buffer unchanged,
whenever every covered cell is outside the bounds.  The filled 1 by 1 box at
(0,0) written with offset (65535,0) and bounds (10,10) covers only the cell
(65535,0), which is outside; the loop test `i < x + wd` is `i < 65536`,
true for every `unsigned short`, so `Box::write` never returns. -/
theorem Box_write_never_returns_at_edge :
    (∀ fuel, Examples.unitBox.write fuel 65535 0 10 10 = .error .outOfFuel) ∧
      (Examples.unitBox.xp + 65535 ≤ 65535 ∧ Examples.unitBox.yp + 0 ≤ 65535 ∧
        10 ≤ Examples.unitBox.xp + 65535 ∧
        Examples.unitBox.wd = 1 ∧ Examples.unitBox.ht = 1) := by
  refine ⟨?_, by decide⟩
  intro fuel
  simp only [Box.write, Examples.unitBox, if_true]
  exact Box.writeFill_diverges _ _ _ _ _ _ (by decide) fuel _ (by decide)

/-- The calls on a list extended by one shape: that shape first, then the
list. -/
theorem CharDisplay.storesOf_append_singleton (call : StructPtr → Except Err (List Store))
    (l : List StructPtr) (a : StructPtr) :
    CharDisplay.storesOf call (l ++ [a]) = (do
      let here ← call a
      let rest ← CharDisplay.storesOf call l
      pure (here ++ rest)) := by
  simp only [CharDisplay.storesOf, List.foldl_append, List.foldl_cons, List.foldl_nil]

/-- A shape whose call performs no store can be left out of the list. -/
theorem CharDisplay.storesOf_skip (call : StructPtr → Except Err (List Store))
    (pre post : List StructPtr) (a : StructPtr) (ha : call a = .ok []) :
    CharDisplay.storesOf call (pre ++ a :: post) = CharDisplay.storesOf call (pre ++ post) := by
  simp only [CharDisplay.storesOf, List.foldl_append, List.foldl_cons, ha]
  congr 1
  cases List.foldl (fun acc a => do
    let here ← call a
    let rest ← acc
    pure (here ++ rest)) (pure []) pre <;> rfl

/-- The loop of `writeStructs` from index `i` down performs the calls on the
first `i + 1` shapes, last first. -/
theorem CharDisplay.writeStructsLoop_eq_storesOf (d : CharDisplay) (fuel : Nat) :
    ∀ i, i < 65535 → i < d.structs.length →
      d.writeStructsLoop fuel i =
        CharDisplay.storesOf (fun a => a.obj.write fuel d.dx d.dy d.dlx d.dly)
          (d.structs.take (i + 1)) := by
  intro i
  induction i with
  | zero =>
    intro _ h
    have ht : d.structs.take (0 + 1) = d.structs.take 0 ++ [d.structs[0]] := by
      rw [← List.take_concat_get _ _ h, List.concat_eq_append]
    rw [ht, CharDisplay.storesOf_append_singleton,
      CharDisplay.writeStructsLoop, CharDisplay.writeStructAt, dif_pos h]
    simp only [List.take_zero, CharDisplay.storesOf, List.foldl_nil]
    cases d.structs[0].obj.write fuel d.dx d.dy d.dlx d.dly <;> simp [bind, Except.bind, pure, Except.pure]
  | succ n ih =>
    intro hn h
    have ht : d.structs.take (n + 1 + 1) = d.structs.take (n + 1) ++ [d.structs[n + 1]] := by
      rw [← List.take_concat_get _ _ h, List.concat_eq_append]
    rw [ht, CharDisplay.storesOf_append_singleton,
      CharDisplay.writeStructsLoop, if_pos hn, ih (by omega) (by omega),
      CharDisplay.writeStructAt, dif_pos h]

/-- With at most 65535 shapes, `writeStructs` performs the calls on all
shapes, last first. -/
theorem CharDisplay.writeStructsStores_eq_storesOf (d : CharDisplay) (fuel : Nat)
    (hlen : d.structs.length ≤ 65535) :
    d.writeStructsStores fuel =
      CharDisplay.storesOf (fun a => a.obj.write fuel d.dx d.dy d.dlx d.dly) d.structs := by
  unfold CharDisplay.writeStructsStores
  by_cases h0 : d.structs.length = 0
  · have hnil : d.structs = [] := List.length_eq_zero.mp h0
    have h1 : toU16 (((d.structs.length : Nat) : Int) - 1) = 65534 + 1 := by
      rw [h0]; decide
    rw [h1, CharDisplay.writeStructsLoop, if_neg (by decide), hnil]
    rfl
  · have h1 : toU16 (((d.structs.length : Nat) : Int) - 1) = d.structs.length - 1 := by
      unfold toU16; omega
    rw [h1, CharDisplay.writeStructsLoop_eq_storesOf d fuel _ (by omega) (by omega)]
    have h2 : d.structs.length - 1 + 1 = d.structs.length := by omega
    rw [h2, List.take_length]


/-- Removing from the collection a shape whose `write` performs no store
does not change what `redrawStructs` leaves in the buffer, for a collection
of at most 65535 shapes. -/
theorem CharDisplay.redrawStructs_eraseIdx (d : CharDisplay) (fuel i : Nat)
    (hlen : d.structs.length ≤ 65535) (hi : i < d.structs.length)
    (hno : d.clear.writeStructAt fuel i = .ok []) :
    (d.redrawStructs fuel).map (fun r => r.winChars) =
      (({ d with structs := d.structs.eraseIdx i } : CharDisplay).redrawStructs fuel).map
        (fun r => r.winChars) := by
  have hcall : d.structs[i].obj.write fuel d.dx d.dy d.dlx d.dly = .ok [] := by
    have h := hno
    rw [CharDisplay.writeStructAt, dif_pos (show i < d.clear.structs.length from hi)] at h
    exact h
  have hsplit : d.structs = d.structs.take i ++ d.structs[i] :: d.structs.drop (i + 1) := by
    rw [← List.drop_eq_getElem_cons hi, List.take_append_drop]
  have hlen2 : (d.structs.eraseIdx i).length ≤ 65535 := by
    rw [List.length_eraseIdx]
    split <;> omega
  have h1 := CharDisplay.writeStructsStores_eq_storesOf d.clear fuel hlen
  have h2 := CharDisplay.writeStructsStores_eq_storesOf
    ({ d with structs := d.structs.eraseIdx i } : CharDisplay).clear fuel hlen2
  have hst : d.clear.writeStructsStores fuel =
      ({ d with structs := d.structs.eraseIdx i } : CharDisplay).clear.writeStructsStores
        fuel := by
    rw [h1, h2]
    show CharDisplay.storesOf (fun a => a.obj.write fuel d.dx d.dy d.dlx d.dly) d.structs =
      CharDisplay.storesOf (fun a => a.obj.write fuel d.dx d.dy d.dlx d.dly)
        (d.structs.eraseIdx i)
    rw [List.eraseIdx_eq_take_drop_succ]
    nth_rewrite 1 [hsplit]
    exact CharDisplay.storesOf_skip _ _ _ _ hcall
  simp only [CharDisplay.redrawStructs, CharDisplay.writeStructs, hst]
  cases ({ d with structs := d.structs.eraseIdx i } : CharDisplay).clear.writeStructsStores
    fuel <;> rfl

/-- Every store of the loop of `writeStructs` is made in the iteration of
some shape. -/
theorem CharDisplay.writeStructsLoop_mem (d : CharDisplay) (fuel : Nat) :
    ∀ k sts, d.writeStructsLoop fuel k = .ok sts → ∀ st ∈ sts,
      ∃ j l, d.writeStructAt fuel j = .ok l ∧ st ∈ l := by
  intro k
  induction k with
  | zero =>
    intro sts h st hst
    rw [CharDisplay.writeStructsLoop] at h
    exact ⟨0, sts, h, hst⟩
  | succ n ih =>
    intro sts h st hst
    rw [CharDisplay.writeStructsLoop] at h
    split at h
    · cases hhere : d.writeStructAt fuel (n + 1) with
      | error e => rw [hhere] at h; simp [bind, Except.bind] at h
      | ok here =>
        cases hrest : d.writeStructsLoop fuel n with
        | error e => rw [hhere, hrest] at h; simp [bind, Except.bind] at h
        | ok rest =>
          rw [hhere, hrest] at h
          simp only [bind, Except.bind, pure, Except.pure, Except.ok.injEq] at h
          subst h
          rcases List.mem_append.mp hst with h1 | h2
          · exact ⟨n + 1, here, hhere, h1⟩
          · exact ih rest hrest st h2
    · simp only [pure, Except.pure, Except.ok.injEq] at h
      subst h
      simp at hst

/-- C19 (as stated, refuted): on the 65535 by 1 display without offsets,
after `scrollX(-2)` the point at (0,0) has `0 + (-2) < 0`, but its
translated column 65534 is below the width: `redrawStructs()` stores its
glyph 65 at (65534,0). -/
theorem scroll_negative_point_written_on_wide_display :
    (Examples.wide.scrollX (-2)).clear.writeStructsStores 0 = .ok [⟨65534, 0, 65⟩] ∧
      ((Examples.wide.scrollX (-2)).redrawStructs 0).map (fun r => r.charAt 65534 0) = .ok 65 ∧
      Examples.wide.xo = 0 ∧ Examples.wide.yo = 0 ∧
      Examples.wide.xs = 0 ∧ Examples.wide.ys = 0 := by
  decide

/-- C19 (amended): for every display with zero view offset and zero scroll
offset, every negative `short` `d` and every point at `(xp, yp)` held at
index `i`.  If the width is at most 32768 and `xp + d < 0`, then after
`scrollX(d)` the translated column, computed modulo 65536, is at least 32768
and fails the test `x < xMax`; the iteration of `writeStructs` for the point
performs no store, so that every store `writeStructs` performs within
`redrawStructs()` is made in the iteration of another shape; and, the
display holding at most 65535 shapes, `redrawStructs()` has the outcome, and
leaves the buffer, that it has and leaves when the point has been erased
from the collection.  If the height is at most 32768 and `yp + d < 0`, the
same holds after `scrollY(d)`, for the translated row and the test
`y < yMax`. -/
theorem scroll_negative_point_not_written (d : CharDisplay) (p : CollChar) (dd : Int)
    (i fuel : Nat)
    (hxo : d.xo = 0) (hyo : d.yo = 0) (hxs : d.xs = 0) (hys : d.ys = 0)
    (hshort : -32768 ≤ dd) (hneg : dd < 0)
    (hi : i < d.structs.length) (hp : d.structs[i].obj = .collChar p) :
    (d.w ≤ 32768 → (p.xp : Int) + dd < 0 →
      (32768 ≤ (p.xp + (d.scrollX dd).dx) % 65536 ∧
        ¬ ((p.xp + (d.scrollX dd).dx) % 65536 < (d.scrollX dd).dlx)) ∧
      (d.scrollX dd).clear.writeStructAt fuel i = .ok [] ∧
      (∀ sts, (d.scrollX dd).clear.writeStructsStores fuel = .ok sts → ∀ st ∈ sts,
        ∃ j l, j ≠ i ∧ (d.scrollX dd).clear.writeStructAt fuel j = .ok l ∧ st ∈ l) ∧
      (d.structs.length ≤ 65535 →
        ((d.scrollX dd).redrawStructs fuel).map (fun r => r.winChars) =
          ((({ d with structs := d.structs.eraseIdx i } : CharDisplay).scrollX
            dd).redrawStructs fuel).map (fun r => r.winChars))) ∧
    (d.h ≤ 32768 → (p.yp : Int) + dd < 0 →
      (32768 ≤ (p.yp + (d.scrollY dd).dy) % 65536 ∧
        ¬ ((p.yp + (d.scrollY dd).dy) % 65536 < (d.scrollY dd).dly)) ∧
      (d.scrollY dd).clear.writeStructAt fuel i = .ok [] ∧
      (∀ sts, (d.scrollY dd).clear.writeStructsStores fuel = .ok sts → ∀ st ∈ sts,
        ∃ j l, j ≠ i ∧ (d.scrollY dd).clear.writeStructAt fuel j = .ok l ∧ st ∈ l) ∧
      (d.structs.length ≤ 65535 →
        ((d.scrollY dd).redrawStructs fuel).map (fun r => r.winChars) =
          ((({ d with structs := d.structs.eraseIdx i } : CharDisplay).scrollY
            dd).redrawStructs fuel).map (fun r => r.winChars))) := by
  have hs1 : toU16 ((0 : Nat) + dd) = (65536 + dd).toNat := by
    unfold toU16; omega
  constructor
  · intro hw hx
    have hcoord : 32768 ≤ (p.xp + (d.scrollX dd).dx) % 65536 ∧
        ¬ ((p.xp + (d.scrollX dd).dx) % 65536 < (d.scrollX dd).dlx) := by
      simp only [CharDisplay.scrollX, CharDisplay.dx, CharDisplay.dlx, hxo, hxs, hs1,
        Nat.add_zero]
      omega
    have hno : (d.scrollX dd).clear.writeStructAt fuel i = .ok [] := by
      have hi1 : i < (d.scrollX dd).clear.structs.length := hi
      have hp1 : (d.scrollX dd).clear.structs[i].obj = .collChar p := hp
      rw [CharDisplay.writeStructAt, dif_pos hi1, hp1, CharStruct.write]
      simp only [CollChar.write]
      rw [if_neg (fun hc => hcoord.2 hc.1)]
    refine ⟨hcoord, hno, ?_, fun hlen =>
      CharDisplay.redrawStructs_eraseIdx (d.scrollX dd) fuel i hlen hi hno⟩
    intro sts hsts st hst
    obtain ⟨j, l, hj, hm⟩ := CharDisplay.writeStructsLoop_mem _ fuel _ sts hsts st hst
    refine ⟨j, l, ?_, hj, hm⟩
    intro hji
    rw [hji, hno] at hj
    cases hj
    simp at hm
  · intro hh hy
    have hcoord : 32768 ≤ (p.yp + (d.scrollY dd).dy) % 65536 ∧
        ¬ ((p.yp + (d.scrollY dd).dy) % 65536 < (d.scrollY dd).dly) := by
      simp only [CharDisplay.scrollY, CharDisplay.dy, CharDisplay.dly, hyo, hys, hs1,
        Nat.add_zero]
      omega
    have hno : (d.scrollY dd).clear.writeStructAt fuel i = .ok [] := by
      have hi1 : i < (d.scrollY dd).clear.structs.length := hi
      have hp1 : (d.scrollY dd).clear.structs[i].obj = .collChar p := hp
      rw [CharDisplay.writeStructAt, dif_pos hi1, hp1, CharStruct.write]
      simp only [CollChar.write]
      rw [if_neg (fun hc => hcoord.2 hc.2)]
    refine ⟨hcoord, hno, ?_, fun hlen =>
      CharDisplay.redrawStructs_eraseIdx (d.scrollY dd) fuel i hlen hi hno⟩
    intro sts hsts st hst
    obtain ⟨j, l, hj, hm⟩ := CharDisplay.writeStructsLoop_mem _ fuel _ sts hsts st hst
    refine ⟨j, l, ?_, hj, hm⟩
    intro hji
    rw [hji, hno] at hj
    cases hj
    simp at hm

/-- C19, instance: the 5 by 5 display holding a point at (1,1) with glyph
65, at index 0, and a point at (4,4) with glyph 66, scrolled by -2 in
either direction.  The redraw returns, shows 66 where the second point has
moved to, and 65 in no cell of the buffer; it leaves the buffer of the
display that holds the second point only. -/
theorem scroll_negative_point_not_written_witness :
    (Examples.twoPoints.xo = 0 ∧ Examples.twoPoints.yo = 0 ∧ Examples.twoPoints.xs = 0 ∧
      Examples.twoPoints.ys = 0 ∧ Examples.twoPoints.w ≤ 32768 ∧
      Examples.twoPoints.h ≤ 32768 ∧ Examples.twoPoints.structs.length ≤ 65535 ∧
      (-32768 : Int) ≤ -2 ∧ (-2 : Int) < 0 ∧ ((1 : Nat) : Int) + -2 < 0) ∧
    ((∃ r, (Examples.twoPoints.scrollX (-2)).redrawStructs 0 = .ok r ∧ r.charAt 2 4 = 66 ∧
        ∀ x, x < 5 → ∀ y, y < 5 → r.charAt x y ≠ 65) ∧
      ((Examples.twoPoints.scrollX (-2)).redrawStructs 0).map (fun r => r.winChars) =
        ((({ Examples.twoPoints with structs := Examples.twoPoints.structs.eraseIdx 0 } :
            CharDisplay).scrollX (-2)).redrawStructs 0).map (fun r => r.winChars)) ∧
    ((∃ r, (Examples.twoPoints.scrollY (-2)).redrawStructs 0 = .ok r ∧ r.charAt 4 2 = 66 ∧
        ∀ x, x < 5 → ∀ y, y < 5 → r.charAt x y ≠ 65) ∧
      ((Examples.twoPoints.scrollY (-2)).redrawStructs 0).map (fun r => r.winChars) =
        ((({ Examples.twoPoints with structs := Examples.twoPoints.structs.eraseIdx 0 } :
            CharDisplay).scrollY (-2)).redrawStructs 0).map (fun r => r.winChars)) :=
  ⟨by decide,
    ⟨⟨_, rfl, by decide, by decide⟩,
      ((scroll_negative_point_not_written Examples.twoPoints ⟨1, 1, 1, 65⟩ (-2) 0 0 rfl rfl
        rfl rfl (by decide) (by decide) (by decide) rfl).1 (by decide) (by decide)).2.2.2
        (by decide)⟩,
    ⟨⟨_, rfl, by decide, by decide⟩,
      ((scroll_negative_point_not_written Examples.twoPoints ⟨1, 1, 1, 65⟩ (-2) 0 0 rfl rfl
        rfl rfl (by decide) (by decide) (by decide) rfl).2 (by decide) (by decide)).2.2.2
        (by decide)⟩⟩

/-- C20: two displays holding the same collection give the same answer to
every call `hasCollCode(x, y, code)`, whatever their buffers, dirty flags,
sizes, view offsets and scroll offsets; in particular `clear`,
`writeStructs`, `redrawStructs`, `update`, `scrollX` and `scrollY` leave
every answer as it was. -/
theorem hasCollCode_independent_of_rendering (d1 d2 : CharDisplay) (fuel x y code : Nat)
    (hs : d1.structs = d2.structs) :
    d1.hasCollCode fuel x y code = d2.hasCollCode fuel x y code ∧
      d1.clear.hasCollCode fuel x y code = d1.hasCollCode fuel x y code ∧
      (∀ f r, d1.writeStructs f = .ok r →
        r.hasCollCode fuel x y code = d1.hasCollCode fuel x y code) ∧
      (∀ f r, d1.redrawStructs f = .ok r →
        r.hasCollCode fuel x y code = d1.hasCollCode fuel x y code) ∧
      (∀ win r win1, d1.update win = .ok (r, win1) →
        r.hasCollCode fuel x y code = d1.hasCollCode fuel x y code) ∧
      (∀ c, (d1.scrollX c).hasCollCode fuel x y code = d1.hasCollCode fuel x y code) ∧
      (∀ c, (d1.scrollY c).hasCollCode fuel x y code = d1.hasCollCode fuel x y code) := by
  have key : ∀ a b : CharDisplay, a.structs = b.structs →
      a.hasCollCode fuel x y code = b.hasCollCode fuel x y code := by
    intro a b hab
    simp only [CharDisplay.hasCollCode, hab]
  refine ⟨key _ _ hs, key _ _ rfl, ?_, ?_, ?_, fun c => key _ _ rfl, fun c => key _ _ rfl⟩
  · intro f r hr
    exact key _ _ (CharDisplay.writeStructs_structs _ _ _ hr)
  · intro f r hr
    exact key _ _ (CharDisplay.writeStructs_structs d1.clear r f hr)
  · intro win r win1 hr
    exact key _ _ (CharDisplay.update_structs _ _ _ _ hr)

/-- C20, instance: the display holding A and B, and the same display
scrolled by 3 and cleared, queried at (3,3) for code 1. -/
theorem hasCollCode_independent_of_rendering_witness :
    Examples.overlap.structs = ((Examples.overlap.scrollX 3).clear).structs ∧
    (Examples.overlap.hasCollCode 0 3 3 1 =
        ((Examples.overlap.scrollX 3).clear).hasCollCode 0 3 3 1 ∧
      Examples.overlap.clear.hasCollCode 0 3 3 1 = Examples.overlap.hasCollCode 0 3 3 1 ∧
      (∀ f r, Examples.overlap.writeStructs f = .ok r →
        r.hasCollCode 0 3 3 1 = Examples.overlap.hasCollCode 0 3 3 1) ∧
      (∀ f r, Examples.overlap.redrawStructs f = .ok r →
        r.hasCollCode 0 3 3 1 = Examples.overlap.hasCollCode 0 3 3 1) ∧
      (∀ win r win1, Examples.overlap.update win = .ok (r, win1) →
        r.hasCollCode 0 3 3 1 = Examples.overlap.hasCollCode 0 3 3 1) ∧
      (∀ c, (Examples.overlap.scrollX c).hasCollCode 0 3 3 1 =
        Examples.overlap.hasCollCode 0 3 3 1) ∧
      (∀ c, (Examples.overlap.scrollY c).hasCollCode 0 3 3 1 =
        Examples.overlap.hasCollCode 0 3 3 1)) :=
  ⟨rfl, hasCollCode_independent_of_rendering Examples.overlap
    ((Examples.overlap.scrollX 3).clear) 0 3 3 1 rfl⟩


/-! ## Lemmas on `update`, on matches of `hasCollCode` and on the exact stores of lines and boxes -/

/-- A call of `writeAtNR` inside the window returns. -/
theorem ASCIIWindow.writeAtNR_ok (win : ASCIIWindow) (x y c : Nat)
    (hx : x < win.wd) (hy : y < win.ht) :
    win.writeAtNR x y c =
      .ok { win with cells := win.moveAddch x y c, posX := x, posY := y } := by
  simp only [ASCIIWindow.writeAtNR]
  rw [if_neg (by omega)]

/-- A printable character written on the screen is put in its cell, and
no other cell changes. -/
theorem ASCIIWindow.moveAddch_printable (win : ASCIIWindow) (x y c : Nat)
    (hx : x < win.cols) (hy : y < win.lines) (hc : 32 ≤ c ∧ c ≤ 126) :
    win.moveAddch x y c = fun i j => if i = x ∧ j = y then some c else win.cells i j := by
  simp only [ASCIIWindow.moveAddch, hx, hy, hc, and_self, if_true]

/-- The column loop of `update`, inside the window, returns and leaves the
sizes of window and screen. -/
theorem CharDisplay.updateCol_returns (d : CharDisplay) (i : Nat) :
    ∀ n j (win : ASCIIWindow), i < win.wd → j + n ≤ win.ht →
      ∃ win1, CharDisplay.updateCol d i n j win = .ok win1 ∧
        win1.wd = win.wd ∧ win1.ht = win.ht ∧ win1.cols = win.cols ∧
        win1.lines = win.lines := by
  intro n
  induction n with
  | zero =>
    intro j win _ _
    exact ⟨win, rfl, rfl, rfl, rfl, rfl⟩
  | succ n ih =>
    intro j win hi hj
    obtain ⟨win1, h1, hwd, hht, hcols, hlines⟩ := ih (j + 1)
      { win with cells := win.moveAddch i j (d.winChars i j), posX := i, posY := j }
      hi (by simp only; omega)
    refine ⟨win1, ?_, hwd, hht, hcols, hlines⟩
    rw [CharDisplay.updateCol, ASCIIWindow.writeAtNR_ok win i j _ hi (by omega)]
    exact h1

/-- The outer loop of `update`, inside the window, returns and leaves the
sizes of window and screen. -/
theorem CharDisplay.updateLoop_returns (d : CharDisplay) :
    ∀ n i (win : ASCIIWindow), i + n ≤ win.wd → d.h ≤ win.ht →
      ∃ win1, CharDisplay.updateLoop d n i win = .ok win1 ∧
        win1.wd = win.wd ∧ win1.ht = win.ht ∧ win1.cols = win.cols ∧
        win1.lines = win.lines := by
  intro n
  induction n with
  | zero =>
    intro i win _ _
    exact ⟨win, rfl, rfl, rfl, rfl, rfl⟩
  | succ n ih =>
    intro i win hi hh
    obtain ⟨winc, hc, hcwd, hcht, hccols, hclines⟩ :=
      CharDisplay.updateCol_returns d i d.h 0 win (by omega) (by omega)
    obtain ⟨win1, h1, hwd, hht, hcols, hlines⟩ := ih (i + 1) winc (by omega) (by omega)
    refine ⟨win1, ?_, by omega, by omega, by omega, by omega⟩
    rw [CharDisplay.updateLoop, hc]
    exact h1

/-- The column loop of `update`, inside the window and the screen, over
printable characters: it puts the buffer cells `(i, j), ..., (i, j + n - 1)`
on the screen, leaving the other cells. -/
theorem CharDisplay.updateCol_spec (d : CharDisplay) (i : Nat) :
    ∀ n j (win : ASCIIWindow), i < win.wd → j + n ≤ win.ht →
      i < win.cols → j + n ≤ win.lines →
      (∀ b : Nat, j ≤ b → b < j + n → 32 ≤ d.winChars i b ∧ d.winChars i b ≤ 126) →
      ∃ win1, CharDisplay.updateCol d i n j win = .ok win1 ∧
        win1.wd = win.wd ∧ win1.ht = win.ht ∧ win1.cols = win.cols ∧
        win1.lines = win.lines ∧
        ∀ a b, win1.cells a b =
          if a = i ∧ j ≤ b ∧ b < j + n then some (d.winChars i b) else win.cells a b := by
  intro n
  induction n with
  | zero =>
    intro j win _ _ _ _ _
    refine ⟨win, rfl, rfl, rfl, rfl, rfl, ?_⟩
    intro a b
    rw [if_neg (by omega)]
  | succ n ih =>
    intro j win hi hj hic hjl hpr
    obtain ⟨win1, h1, hwd, hht, hcols, hlines, hcells⟩ := ih (j + 1)
      { win with cells := win.moveAddch i j (d.winChars i j), posX := i, posY := j }
      hi (by simp only; omega) hic (by simp only; omega)
      (fun b hb1 hb2 => hpr b (by omega) (by omega))
    refine ⟨win1, ?_, hwd, hht, hcols, hlines, ?_⟩
    · rw [CharDisplay.updateCol, ASCIIWindow.writeAtNR_ok win i j _ hi (by omega)]
      exact h1
    · intro a b
      rw [hcells a b]
      simp only
      rw [ASCIIWindow.moveAddch_printable win i j _ hic (by omega)
        (hpr j (by omega) (by omega))]
      by_cases hab : a = i ∧ b = j
      · obtain ⟨rfl, rfl⟩ := hab
        rw [if_neg (by omega), if_pos (by omega)]
        simp
      · by_cases hr : a = i ∧ j + 1 ≤ b ∧ b < j + 1 + n
        · rw [if_pos hr, if_pos (by omega)]
        · rw [if_neg hr, if_neg (by omega)]
          simp only [hab, if_false]

/-- The outer loop of `update`, inside the window and the screen, over
printable characters: it puts the buffer columns `i, ..., i + n - 1` on the
screen, leaving the other cells. -/
theorem CharDisplay.updateLoop_spec (d : CharDisplay) :
    ∀ n i (win : ASCIIWindow), i + n ≤ win.wd → d.h ≤ win.ht →
      i + n ≤ win.cols → d.h ≤ win.lines →
      (∀ a b : Nat, i ≤ a → a < i + n → b < d.h →
        32 ≤ d.winChars a b ∧ d.winChars a b ≤ 126) →
      ∃ win1, CharDisplay.updateLoop d n i win = .ok win1 ∧
        win1.wd = win.wd ∧ win1.ht = win.ht ∧ win1.cols = win.cols ∧
        win1.lines = win.lines ∧
        ∀ a b, win1.cells a b =
          if i ≤ a ∧ a < i + n ∧ b < d.h then some (d.winChars a b) else win.cells a b := by
  intro n
  induction n with
  | zero =>
    intro i win _ _ _ _ _
    refine ⟨win, rfl, rfl, rfl, rfl, rfl, ?_⟩
    intro a b
    rw [if_neg (by omega)]
  | succ n ih =>
    intro i win hi hh hic hhl hpr
    obtain ⟨winc, hc, hcwd, hcht, hccols, hclines, hccells⟩ :=
      CharDisplay.updateCol_spec d i d.h 0 win (by omega) (by omega) (by omega) (by omega)
        (fun b _ hb => hpr i b (by omega) (by omega) (by omega))
    obtain ⟨win1, h1, hwd, hht, hcols, hlines, hcells⟩ :=
      ih (i + 1) winc (by omega) (by omega) (by omega) (by omega)
        (fun a b ha1 ha2 hb => hpr a b (by omega) (by omega) hb)
    refine ⟨win1, ?_, by omega, by omega, by omega, by omega, ?_⟩
    · rw [CharDisplay.updateLoop, hc]
      exact h1
    · intro a b
      rw [hcells a b, hccells a b]
      by_cases hr : i + 1 ≤ a ∧ a < i + 1 + n ∧ b < d.h
      · rw [if_pos hr, if_pos (by omega)]
      · rw [if_neg hr]
        by_cases ha : a = i ∧ 0 ≤ b ∧ b < 0 + d.h
        · rw [if_pos ha, if_pos (by omega)]
          rw [ha.1]
        · rw [if_neg ha, if_neg (by omega)]

/-- On a display that is not yet flushed and a window at least as large,
`update` returns the display with `up = true`, whatever the buffer holds;
the window keeps its size. -/
theorem CharDisplay.update_returns (d : CharDisplay) (win : ASCIIWindow)
    (hup : d.up = false) (hw : d.w ≤ win.wd) (hh : d.h ≤ win.ht) :
    ∃ win1, d.update win = .ok ({ d with up := true }, win1) ∧
      win1.wd = win.wd ∧ win1.ht = win.ht := by
  obtain ⟨win1, h1, hwd, hht, _, _⟩ :=
    CharDisplay.updateLoop_returns d d.w 0 win (by omega) hh
  refine ⟨win1, ?_, hwd, hht⟩
  simp only [CharDisplay.update, hup, if_true, h1]

/-- On a display that is not yet flushed and holds printable characters,
with the window and the screen at least as large, `update` returns the
display with `up = true` and a screen that shows every buffer cell. -/
theorem CharDisplay.update_shows (d : CharDisplay) (win : ASCIIWindow)
    (hup : d.up = false) (hw : d.w ≤ win.wd) (hh : d.h ≤ win.ht)
    (hcols : d.w ≤ win.cols) (hlines : d.h ≤ win.lines)
    (hpr : ∀ i j : Nat, i < d.w → j < d.h → 32 ≤ d.winChars i j ∧ d.winChars i j ≤ 126) :
    ∃ win1, d.update win = .ok ({ d with up := true }, win1) ∧
      ∀ i j, i < d.w → j < d.h → win1.cells i j = some (d.winChars i j) := by
  obtain ⟨win1, h1, _, _, _, _, hcells⟩ :=
    CharDisplay.updateLoop_spec d d.w 0 win (by omega) hh (by omega) hlines
      (fun a b _ ha hb => hpr a b (by omega) hb)
  refine ⟨win1, ?_, ?_⟩
  · simp only [CharDisplay.update, hup, if_true, h1]
  · intro i j hi hj
    rw [hcells i j, if_pos (by omega)]

/-- When the group loop returns true, the call on some child returned true. -/
theorem CharStructGroup.inCollLoop_true (call : CharStruct → Except Err Bool)
    (structs : List CharStruct) :
    ∀ fuel i, CharStructGroup.inCollLoop call structs fuel i = .ok true →
      ∃ c ∈ structs, call c = .ok true := by
  intro fuel
  induction fuel with
  | zero => intro i h; simp [CharStructGroup.inCollLoop] at h
  | succ n ih =>
    intro i h
    unfold CharStructGroup.inCollLoop at h
    by_cases hi : i < structs.length
    · simp only [hi, dite_true] at h
      cases hc : call structs[i] with
      | error e => rw [hc] at h; simp at h
      | ok v =>
        rw [hc] at h
        cases v
        · exact ih _ h
        · exact ⟨structs[i], List.getElem_mem hi, hc⟩
    · simp [hi] at h

/-- When `inColl` of a group returns true, `inColl` of some child does. -/
theorem CharStruct.group_inColl_true (c xp yp : Nat) (children : List CharStruct)
    (fuel x y : Nat) (h : (CharStruct.group c xp yp children).inColl fuel x y = .ok true) :
    ∃ child ∈ children, ∃ f, child.inColl f x y = .ok true := by
  cases fuel with
  | zero => simp [CharStruct.inColl] at h
  | succ n =>
    simp only [CharStruct.inColl] at h
    obtain ⟨ch, hch, hcall⟩ := CharStructGroup.inCollLoop_true _ children _ _ h
    exact ⟨ch, hch, n, hcall⟩

/-- When the loop condition of `hasCollCode` is true at an index, the shape
there has the queried code and collides. -/
theorem CharDisplay.hasCollCodeAt_true (structs : List StructPtr) (fuel x y code j : Nat)
    (h : CharDisplay.hasCollCodeAt structs fuel x y code j = .ok true) :
    ∃ e ∈ structs, e.obj.collisionCode = code ∧ e.obj.inColl fuel x y = .ok true := by
  unfold CharDisplay.hasCollCodeAt at h
  by_cases hj : j < structs.length
  · simp only [hj, dite_true] at h
    by_cases hc : structs[j].obj.collisionCode = code
    · simp only [hc, if_true] at h
      exact ⟨structs[j], List.getElem_mem hj, hc, h⟩
    · simp [hc] at h
  · simp [hj] at h

/-- When the loop of `hasCollCode` returns true, some shape has the queried
code and collides. -/
theorem CharDisplay.hasCollCodeLoop_true (structs : List StructPtr) (fuel x y code : Nat) :
    ∀ i, CharDisplay.hasCollCodeLoop structs fuel x y code i = .ok true →
      ∃ e ∈ structs, e.obj.collisionCode = code ∧ e.obj.inColl fuel x y = .ok true := by
  intro i
  induction i with
  | zero =>
    intro h
    rw [CharDisplay.hasCollCodeLoop] at h
    exact CharDisplay.hasCollCodeAt_true structs fuel x y code 0 h
  | succ n ih =>
    intro h
    rw [CharDisplay.hasCollCodeLoop] at h
    by_cases h16 : n + 1 < 65535
    · simp only [h16, if_true] at h
      cases hat : CharDisplay.hasCollCodeAt structs fuel x y code (n + 1) with
      | error e => rw [hat] at h; simp at h
      | ok v =>
        rw [hat] at h
        cases v
        · exact ih h
        · exact CharDisplay.hasCollCodeAt_true structs fuel x y code (n + 1) hat
    · simp [h16] at h

/-- When no shape has the queried code, the loop of `hasCollCode` returns
false from every valid index, without a call of `inColl`. -/
theorem CharDisplay.hasCollCodeLoop_no_code (structs : List StructPtr) (fuel x y code : Nat)
    (hno : ∀ e ∈ structs, e.obj.collisionCode ≠ code) :
    ∀ i, i < structs.length →
      CharDisplay.hasCollCodeLoop structs fuel x y code i = .ok false := by
  have hat : ∀ j, j < structs.length →
      CharDisplay.hasCollCodeAt structs fuel x y code j = .ok false := by
    intro j hj
    unfold CharDisplay.hasCollCodeAt
    simp only [hj, dite_true]
    rw [if_neg (hno _ (List.getElem_mem hj))]
  intro i
  induction i with
  | zero => intro hi; rw [CharDisplay.hasCollCodeLoop]; exact hat 0 hi
  | succ n ih =>
    intro hi
    rw [CharDisplay.hasCollCodeLoop]
    by_cases h16 : n + 1 < 65535
    · simp only [h16, if_true, hat (n + 1) hi]
      exact ih (by omega)
    · simp only [h16, if_false]

/-- Stores none of which is at `(x, y)` leave the content of `(x, y)`. -/
theorem applyStores_of_not_mem (x y : Int) (sts : List Store)
    (hno : ∀ st ∈ sts, ¬ (st.x = x ∧ st.y = y)) :
    ∀ b : Int → Int → Nat, applyStores sts b x y = b x y := by
  induction sts with
  | nil => intro b; rfl
  | cons st rest ih =>
    intro b
    simp only [applyStores, List.foldl_cons]
    have h1 := ih (fun s hs => hno s (List.mem_cons_of_mem _ hs)) (st.apply b)
    simp only [applyStores] at h1
    rw [h1]
    have h0 := hno st (List.mem_cons_self _ _)
    simp only [Store.apply]
    rw [if_neg (fun hc => h0 ⟨hc.1.symm, hc.2.symm⟩)]

/-- A store sequence that holds exactly the stores of the character `c` at
the cells satisfying `P` sets those cells to `c` and leaves every other
cell. -/
theorem applyStores_paint (c : Nat) (P : Nat → Nat → Prop) (sts : List Store)
    (hmem : ∀ st, st ∈ sts ↔ ∃ x y : Nat, st = ⟨x, y, c⟩ ∧ P x y)
    (buf : Int → Int → Nat) (a b : Int) :
    ((∃ x y : Nat, a = x ∧ b = y ∧ P x y) → applyStores sts buf a b = c) ∧
      (¬ (∃ x y : Nat, a = x ∧ b = y ∧ P x y) → applyStores sts buf a b = buf a b) := by
  constructor
  · rintro ⟨x, y, rfl, rfl, hp⟩
    apply applyStores_const c
    · intro st hst
      obtain ⟨x1, y1, rfl, _⟩ := (hmem st).mp hst
      rfl
    · exact ⟨⟨x, y, c⟩, (hmem _).mpr ⟨x, y, rfl, hp⟩, rfl, rfl⟩
  · intro hno
    apply applyStores_of_not_mem
    intro st hst hxy
    obtain ⟨x1, y1, rfl, hp⟩ := (hmem st).mp hst
    exact hno ⟨x1, y1, hxy.1.symm, hxy.2.symm, hp⟩

/-- The stores of the loop of `Line::write` when its `n` cells from `(x, y)`
on do not wrap around: the cells among them that are inside the bounds. -/
theorem Line.mem_writeLoop (s : Line) (xMax yMax : Nat) :
    ∀ n x y, (if s.vert = true then y + n else x + n) ≤ 65536 →
      ∀ st, st ∈ Line.writeLoop s xMax yMax n x y ↔
        ∃ k, k < n ∧
          (if s.vert = true then x < xMax ∧ y + k < yMax ∧ st = ⟨x, (y + k : Nat), s.chr⟩
           else x + k < xMax ∧ y < yMax ∧ st = ⟨(x + k : Nat), y, s.chr⟩) := by
  intro n
  induction n with
  | zero =>
    intro x y _ st
    simp [Line.writeLoop]
  | succ n ih =>
    intro x y hfit st
    cases hv : s.vert
    · simp only [hv, Bool.false_eq_true, if_false] at hfit ih ⊢
      simp only [Line.writeLoop, hv, Bool.false_eq_true, if_false, List.mem_append]
      have htail : st ∈ Line.writeLoop s xMax yMax n ((x + 1) % 65536) y ↔
          ∃ k, k < n ∧ x + 1 + k < xMax ∧ y < yMax ∧ st = ⟨(x + 1 + k : Nat), y, s.chr⟩ := by
        cases n with
        | zero => simp [Line.writeLoop]
        | succ m =>
          have hmod : (x + 1) % 65536 = x + 1 := Nat.mod_eq_of_lt (by omega)
          rw [hmod]
          exact ih (x + 1) y (by omega) st
      rw [htail]
      constructor
      · rintro (h | ⟨k, hk, h1, h2, h3⟩)
        · split at h
          · rename_i hc
            rw [List.mem_singleton] at h
            exact ⟨0, by omega, by simpa using hc.1, hc.2, by simpa using h⟩
          · cases h
        · exact ⟨k + 1, by omega, by omega, h2, by rw [h3]; congr 1; push_cast; ring⟩
      · rintro ⟨k, hk, h1, h2, h3⟩
        cases k with
        | zero =>
          left
          rw [if_pos ⟨by simpa using h1, h2⟩, List.mem_singleton]
          simpa using h3
        | succ k =>
          right
          exact ⟨k, by omega, by omega, h2, by rw [h3]; congr 1; push_cast; ring⟩
    · simp only [hv, if_true] at hfit ih ⊢
      simp only [Line.writeLoop, hv, if_true, List.mem_append]
      have htail : st ∈ Line.writeLoop s xMax yMax n x ((y + 1) % 65536) ↔
          ∃ k, k < n ∧ x < xMax ∧ y + 1 + k < yMax ∧ st = ⟨x, (y + 1 + k : Nat), s.chr⟩ := by
        cases n with
        | zero => simp [Line.writeLoop]
        | succ m =>
          have hmod : (y + 1) % 65536 = y + 1 := Nat.mod_eq_of_lt (by omega)
          rw [hmod]
          exact ih x (y + 1) (by omega) st
      rw [htail]
      constructor
      · rintro (h | ⟨k, hk, h1, h2, h3⟩)
        · split at h
          · rename_i hc
            rw [List.mem_singleton] at h
            exact ⟨0, by omega, hc.1, by simpa using hc.2, by simpa using h⟩
          · cases h
        · exact ⟨k + 1, by omega, h1, by omega, by rw [h3]; congr 1; push_cast; ring⟩
      · rintro ⟨k, hk, h1, h2, h3⟩
        cases k with
        | zero =>
          left
          rw [if_pos ⟨h1, by simpa using h2⟩, List.mem_singleton]
          simpa using h3
        | succ k =>
          right
          exact ⟨k, by omega, h1, by omega, by rw [h3]; congr 1; push_cast; ring⟩

/-- The stores of `Line::write` with zero offset, for a line that ends at
or below 65536: the cells inside the bounds on which the line collides. -/
theorem Line.mem_write_zero (s : Line) (xMax yMax : Nat)
    (hx : s.xp + s.len ≤ 65536) (hy : s.yp + s.len ≤ 65536) (st : Store) :
    st ∈ s.write 0 0 xMax yMax ↔
      ∃ x y : Nat, st = ⟨x, y, s.chr⟩ ∧ (x < xMax ∧ y < yMax ∧ s.inColl x y = true) := by
  by_cases hlen : s.len = 0
  · simp only [Line.write, hlen, Line.writeLoop, List.not_mem_nil, false_iff]
    rintro ⟨x, y, _, _, _, hin⟩
    cases hv : s.vert <;> simp [Line.inColl, hv, hlen] at hin <;> omega
  · have h1 : (0 + s.xp) % 65536 = s.xp := by
      rw [Nat.zero_add]; exact Nat.mod_eq_of_lt (by omega)
    have h2 : (0 + s.yp) % 65536 = s.yp := by
      rw [Nat.zero_add]; exact Nat.mod_eq_of_lt (by omega)
    have hloop := Line.mem_writeLoop s xMax yMax s.len s.xp s.yp
      (by cases hv : s.vert <;> simp <;> omega) st
    simp only [Line.write, h1, h2]
    rw [hloop]
    cases hv : s.vert
    · simp only [Bool.false_eq_true, if_false, Line.inColl, hv]
      constructor
      · rintro ⟨k, hk, h1, h2, rfl⟩
        refine ⟨s.xp + k, s.yp, rfl, h1, h2, ?_⟩
        simp
        omega
      · rintro ⟨x, y, rfl, hxm, hym, hin⟩
        simp at hin
        obtain ⟨rfl, hge, hle⟩ := hin
        refine ⟨x - s.xp, by omega, by omega, hym, ?_⟩
        congr 1
        omega
    · simp only [if_true, Line.inColl, hv]
      constructor
      · rintro ⟨k, hk, h1, h2, rfl⟩
        refine ⟨s.xp, s.yp + k, rfl, h1, h2, ?_⟩
        simp
        omega
      · rintro ⟨x, y, rfl, hxm, hym, hin⟩
        simp at hin
        obtain ⟨rfl, hge, hle⟩ := hin
        refine ⟨y - s.yp, by omega, hxm, by omega, ?_⟩
        congr 1
        omega

/-- The column loop of the filled branch, when it ends below 65536 and has
fuel for its iterations, returns the stores of the cells of column `i` from
row `j` on that are inside the bounds. -/
theorem Box.writeFillCol_mem (s : Box) (xMax yMax y i : Nat) (hfit : y + s.ht ≤ 65535) :
    ∀ fuel j, j ≤ y + s.ht → y + s.ht - j < fuel →
      ∃ sts, Box.writeFillCol s xMax yMax y i fuel j = .ok sts ∧
        ∀ st, st ∈ sts ↔
          ∃ j1 : Nat, j ≤ j1 ∧ j1 < y + s.ht ∧ i < xMax ∧ j1 < yMax ∧ st = ⟨i, j1, s.chr⟩ := by
  intro fuel
  induction fuel with
  | zero => intro j _ h; omega
  | succ n ih =>
    intro j hj hf
    unfold Box.writeFillCol
    by_cases hc : (j : Int) < (y : Int) + (s.ht : Int)
    · have hmod : (j + 1) % 65536 = j + 1 := Nat.mod_eq_of_lt (by omega)
      obtain ⟨rest, hrest, hmem⟩ := ih (j + 1) (by omega) (by omega)
      refine ⟨(if i < xMax ∧ j < yMax then [(⟨i, j, s.chr⟩ : Store)] else []) ++ rest,
        by simp only [hc, if_true, hmod, hrest, bind, Except.bind, pure, Except.pure], ?_⟩
      intro st
      rw [List.mem_append, hmem]
      constructor
      · rintro (h | ⟨j1, h1, h2, h3, h4, h5⟩)
        · split at h
          · rename_i hin
            rw [List.mem_singleton] at h
            exact ⟨j, le_refl _, by omega, hin.1, hin.2, h⟩
          · cases h
        · exact ⟨j1, by omega, h2, h3, h4, h5⟩
      · rintro ⟨j1, h1, h2, h3, h4, h5⟩
        by_cases hj1 : j1 = j
        · left
          subst hj1
          rw [if_pos ⟨h3, h4⟩, List.mem_singleton]
          exact h5
        · right
          exact ⟨j1, by omega, h2, h3, h4, h5⟩
    · refine ⟨[], by simp only [hc, if_false, pure, Except.pure], ?_⟩
      intro st
      simp only [List.not_mem_nil, false_iff]
      rintro ⟨j1, h1, h2, _⟩
      omega

/-- The outer loop of the filled branch, when the rectangle ends below 65536
in both directions and there is fuel for the iterations, returns the stores
of the cells of the rectangle from column `i` on that are inside the
bounds. -/
theorem Box.writeFill_mem (s : Box) (xMax yMax x y inner : Nat)
    (hfitx : x + s.wd ≤ 65535) (hfity : y + s.ht ≤ 65535) (hinner : s.ht < inner) :
    ∀ fuel i, i ≤ x + s.wd → x + s.wd - i < fuel →
      ∃ sts, Box.writeFill s xMax yMax x y inner fuel i = .ok sts ∧
        ∀ st, st ∈ sts ↔
          ∃ i1 j1 : Nat, i ≤ i1 ∧ i1 < x + s.wd ∧ y ≤ j1 ∧ j1 < y + s.ht ∧
            i1 < xMax ∧ j1 < yMax ∧ st = ⟨i1, j1, s.chr⟩ := by
  intro fuel
  induction fuel with
  | zero => intro i _ h; omega
  | succ n ih =>
    intro i hi hf
    unfold Box.writeFill
    by_cases hc : (i : Int) < (x : Int) + (s.wd : Int)
    · have hmod : (i + 1) % 65536 = i + 1 := Nat.mod_eq_of_lt (by omega)
      obtain ⟨col, hcol, hcmem⟩ := Box.writeFillCol_mem s xMax yMax y i hfity inner y
        (by omega) (by omega)
      obtain ⟨rest, hrest, hmem⟩ := ih (i + 1) (by omega) (by omega)
      refine ⟨col ++ rest, by simp only [hc, if_true, hmod, hcol, hrest, bind, Except.bind,
        pure, Except.pure], ?_⟩
      intro st
      rw [List.mem_append, hmem, hcmem]
      constructor
      · rintro (⟨j1, h1, h2, h3, h4, h5⟩ | ⟨i1, j1, h1, h2, h3, h4, h5, h6, h7⟩)
        · exact ⟨i, j1, le_refl _, by omega, h1, h2, h3, h4, h5⟩
        · exact ⟨i1, j1, by omega, h2, h3, h4, h5, h6, h7⟩
      · rintro ⟨i1, j1, h1, h2, h3, h4, h5, h6, h7⟩
        by_cases hi1 : i1 = i
        · left
          subst hi1
          exact ⟨j1, h3, h4, h5, h6, h7⟩
        · right
          exact ⟨i1, j1, by omega, h2, h3, h4, h5, h6, h7⟩
    · refine ⟨[], by simp only [hc, if_false, pure, Except.pure], ?_⟩
      intro st
      simp only [List.not_mem_nil, false_iff]
      rintro ⟨i1, j1, h1, h2, _⟩
      omega

/-- The horizontal-edge loop of the outline branch, for a height of at least
1, returns the stores of the cells of the top and bottom edge from column
`i` on that are inside the bounds. -/
theorem Box.writeHoriz_mem (s : Box) (xMax yMax x y : Nat) (hfit : x + s.wd ≤ 65535)
    (hht : 1 ≤ s.ht) :
    ∀ fuel i, i ≤ x + s.wd → x + s.wd - i < fuel →
      ∃ sts, Box.writeHoriz s xMax yMax x y fuel i = .ok sts ∧
        ∀ st, st ∈ sts ↔
          ∃ i1 j1 : Nat, i ≤ i1 ∧ i1 < x + s.wd ∧ (j1 = y ∨ j1 = y + s.ht - 1) ∧
            i1 < xMax ∧ j1 < yMax ∧ st = ⟨i1, j1, s.chr⟩ := by
  intro fuel
  induction fuel with
  | zero => intro i _ h; omega
  | succ n ih =>
    intro i hi hf
    unfold Box.writeHoriz
    by_cases hc : (i : Int) < (x : Int) + (s.wd : Int)
    · have hmod : (i + 1) % 65536 = i + 1 := Nat.mod_eq_of_lt (by omega)
      have hcast : (y : Int) + (s.ht : Int) - 1 = ((y + s.ht - 1 : Nat) : Int) := by omega
      obtain ⟨rest, hrest, hmem⟩ := ih (i + 1) (by omega) (by omega)
      refine ⟨(if i < xMax ∧ y < yMax then [(⟨i, y, s.chr⟩ : Store)] else []) ++
        (if i < xMax ∧ (y : Int) + (s.ht : Int) - 1 < (yMax : Int)
          then [(⟨i, (y : Int) + (s.ht : Int) - 1, s.chr⟩ : Store)] else []) ++ rest,
        by simp only [hc, if_true, hmod, hrest, bind, Except.bind, pure, Except.pure], ?_⟩
      intro st
      rw [List.mem_append, List.mem_append, hmem, hcast]
      constructor
      · rintro ((h | h) | ⟨i1, j1, h1, h2, h3, h4, h5, h6⟩)
        · split at h
          · rename_i hin
            rw [List.mem_singleton] at h
            exact ⟨i, y, le_refl _, by omega, Or.inl rfl, hin.1, hin.2, h⟩
          · cases h
        · split at h
          · rename_i hin
            rw [List.mem_singleton] at h
            exact ⟨i, y + s.ht - 1, le_refl _, by omega, Or.inr rfl, hin.1, by omega, h⟩
          · cases h
        · exact ⟨i1, j1, by omega, h2, h3, h4, h5, h6⟩
      · rintro ⟨i1, j1, h1, h2, h3, h4, h5, h6⟩
        by_cases hi1 : i1 = i
        · subst hi1
          left
          rcases h3 with rfl | rfl
          · left
            rw [if_pos ⟨h4, h5⟩, List.mem_singleton]
            exact h6
          · right
            rw [if_pos ⟨h4, by omega⟩, List.mem_singleton]
            exact h6
        · right
          exact ⟨i1, j1, by omega, h2, h3, h4, h5, h6⟩
    · refine ⟨[], by simp only [hc, if_false, pure, Except.pure], ?_⟩
      intro st
      simp only [List.not_mem_nil, false_iff]
      rintro ⟨i1, j1, h1, h2, _⟩
      omega

/-- The vertical-edge loop of the outline branch, for a width of at least 1,
returns the stores of the cells of the left and right edge from row `j` on
that are inside the bounds. -/
theorem Box.writeVert_mem (s : Box) (xMax yMax x y : Nat) (hfit : y + s.ht ≤ 65535)
    (hwd : 1 ≤ s.wd) :
    ∀ fuel j, j ≤ y + s.ht → y + s.ht - j < fuel →
      ∃ sts, Box.writeVert s xMax yMax x y fuel j = .ok sts ∧
        ∀ st, st ∈ sts ↔
          ∃ i1 j1 : Nat, j ≤ j1 ∧ j1 < y + s.ht ∧ (i1 = x ∨ i1 = x + s.wd - 1) ∧
            i1 < xMax ∧ j1 < yMax ∧ st = ⟨i1, j1, s.chr⟩ := by
  intro fuel
  induction fuel with
  | zero => intro j _ h; omega
  | succ n ih =>
    intro j hj hf
    unfold Box.writeVert
    by_cases hc : (j : Int) < (y : Int) + (s.ht : Int)
    · have hmod : (j + 1) % 65536 = j + 1 := Nat.mod_eq_of_lt (by omega)
      have hcast : (x : Int) + (s.wd : Int) - 1 = ((x + s.wd - 1 : Nat) : Int) := by omega
      obtain ⟨rest, hrest, hmem⟩ := ih (j + 1) (by omega) (by omega)
      refine ⟨(if x < xMax ∧ j < yMax then [(⟨x, j, s.chr⟩ : Store)] else []) ++
        (if (x : Int) + (s.wd : Int) - 1 < (xMax : Int) ∧ j < yMax
          then [(⟨(x : Int) + (s.wd : Int) - 1, j, s.chr⟩ : Store)] else []) ++ rest,
        by simp only [hc, if_true, hmod, hrest, bind, Except.bind, pure, Except.pure], ?_⟩
      intro st
      rw [List.mem_append, List.mem_append, hmem, hcast]
      constructor
      · rintro ((h | h) | ⟨i1, j1, h1, h2, h3, h4, h5, h6⟩)
        · split at h
          · rename_i hin
            rw [List.mem_singleton] at h
            exact ⟨x, j, le_refl _, by omega, Or.inl rfl, hin.1, hin.2, h⟩
          · cases h
        · split at h
          · rename_i hin
            rw [List.mem_singleton] at h
            exact ⟨x + s.wd - 1, j, le_refl _, by omega, Or.inr rfl, by omega, hin.2, h⟩
          · cases h
        · exact ⟨i1, j1, by omega, h2, h3, h4, h5, h6⟩
      · rintro ⟨i1, j1, h1, h2, h3, h4, h5, h6⟩
        by_cases hj1 : j1 = j
        · subst hj1
          left
          rcases h3 with rfl | rfl
          · left
            rw [if_pos ⟨h4, h5⟩, List.mem_singleton]
            exact h6
          · right
            rw [if_pos ⟨by omega, h5⟩, List.mem_singleton]
            exact h6
        · right
          exact ⟨i1, j1, by omega, h2, h3, h4, h5, h6⟩
    · refine ⟨[], by simp only [hc, if_false, pure, Except.pure], ?_⟩
      intro st
      simp only [List.not_mem_nil, false_iff]
      rintro ⟨i1, j1, h1, h2, _⟩
      omega

/-- For a box of width and height at least 1 whose translated rectangle
ends below 65536, `Box::write` returns, given fuel above the width and the
height, and its stores are those of its glyph at the cells to paint. -/
theorem Box.mem_write (s : Box) (fuel xo yo xMax yMax : Nat)
    (hwd : 1 ≤ s.wd) (hht : 1 ≤ s.ht)
    (hfitx : s.xp + xo + s.wd ≤ 65535) (hfity : s.yp + yo + s.ht ≤ 65535)
    (hfw : s.wd < fuel) (hfh : s.ht < fuel) :
    ∃ sts, s.write fuel xo yo xMax yMax = .ok sts ∧
      ∀ st, st ∈ sts ↔
        ∃ i j : Nat, st = ⟨i, j, s.chr⟩ ∧ s.paints xo yo xMax yMax i j := by
  have h1 : (s.xp + xo) % 65536 = s.xp + xo := Nat.mod_eq_of_lt (by omega)
  have h2 : (s.yp + yo) % 65536 = s.yp + yo := Nat.mod_eq_of_lt (by omega)
  unfold Box.write
  simp only [h1, h2]
  cases hfill : s.fill
  · obtain ⟨hs, hhs, hhmem⟩ := Box.writeHoriz_mem s xMax yMax (s.xp + xo) (s.yp + yo) hfitx hht
      fuel (s.xp + xo) (by omega) (by omega)
    obtain ⟨vs, hvs, hvmem⟩ := Box.writeVert_mem s xMax yMax (s.xp + xo) (s.yp + yo) hfity hwd
      fuel (s.yp + yo) (by omega) (by omega)
    refine ⟨hs ++ vs, by simp only [Bool.false_eq_true, if_false, hhs, hvs, bind, Except.bind,
      pure, Except.pure], ?_⟩
    intro st
    rw [List.mem_append, hhmem, hvmem]
    simp only [Box.paints, hfill, true_implies]
    constructor
    · rintro (⟨i, j, a1, a2, a3, a4, a5, a6⟩ | ⟨i, j, a1, a2, a3, a4, a5, a6⟩)
      · exact ⟨i, j, a6, a4, a5, a1, a2, by omega, by omega, by omega⟩
      · exact ⟨i, j, a6, a4, a5, by omega, by omega, a1, a2, by omega⟩
    · rintro ⟨i, j, a1, a2, a3, a4, a5, a6, a7, a8⟩
      by_cases hj : j = s.yp + yo ∨ j = s.yp + yo + s.ht - 1
      · left
        exact ⟨i, j, a4, a5, hj, a2, a3, a1⟩
      · right
        exact ⟨i, j, a6, a7, by omega, a2, a3, a1⟩
  · obtain ⟨fs, hfs, hfmem⟩ := Box.writeFill_mem s xMax yMax (s.xp + xo) (s.yp + yo) fuel
      hfitx hfity hfh fuel (s.xp + xo) (by omega) (by omega)
    refine ⟨fs, by simp only [if_true, hfs], ?_⟩
    intro st
    rw [hfmem]
    simp only [Box.paints, hfill, Bool.true_eq_false, false_implies, and_true]
    constructor
    · rintro ⟨i, j, a1, a2, a3, a4, a5, a6, a7⟩
      exact ⟨i, j, a7, a5, a6, a1, a2, a3, a4⟩
    · rintro ⟨i, j, a1, a2, a3, a4, a5, a6, a7⟩
      exact ⟨i, j, a4, a5, a6, a7, a2, a3, a1⟩

/-! ## Claims C21 to C30 -/

/-- C21 (as stated, refuted): the 2 by 2 display holding one point with
glyph 10, a newline, at (0,0), on the 10 by 10 window of an 80 by 24
terminal.  After `redrawStructs()` the display is not flushed and its buffer
holds 10 at (0,0); after `update()` the display is flushed and its buffer
still holds 10 there, but the screen holds a space at (0,0): `addch` does
not put a newline in a cell. -/
theorem update_newline_not_shown :
    (Examples.newlinePoint.w ≤ Examples.window10.wd ∧
      Examples.newlinePoint.h ≤ Examples.window10.ht ∧
      Examples.newlinePoint.w ≤ Examples.window10.cols ∧
      Examples.newlinePoint.h ≤ Examples.window10.lines) ∧
    (Examples.newlinePoint.redrawStructs 0).map (fun d => (d.up, d.charAt 0 0)) =
      .ok (false, 10) ∧
    ((Examples.newlinePoint.redrawStructs 0).bind
        fun d => d.update Examples.window10).map
      (fun r => (r.1.up, r.1.charAt 0 0, r.2.cells 0 0)) = .ok (true, 10, some 32) := by
  decide

/-- C21 (amended): for every display that is not yet flushed (`up = false`)
and whose buffer holds a printable character, 32 to 126, in every cell, and
every window at least `w` wide and `h` high on a screen of at least `w`
columns and `h` lines, `update()` returns; afterwards the screen shows the
buffer character `winChars[i][j]` at `(i, j)` for every `i < w`, `j < h`,
`updated()` is true, and the buffer and the collection are as before. -/
theorem update_copies_printable_buffer (d : CharDisplay) (win : ASCIIWindow)
    (hup : d.up = false) (hw : d.w ≤ win.wd) (hh : d.h ≤ win.ht)
    (hcols : d.w ≤ win.cols) (hlines : d.h ≤ win.lines)
    (hpr : ∀ i j : Nat, i < d.w → j < d.h → 32 ≤ d.charAt i j ∧ d.charAt i j ≤ 126) :
    ∃ d1 win1, d.update win = .ok (d1, win1) ∧
      (∀ i j, i < d.w → j < d.h → win1.cells i j = some (d.charAt i j)) ∧
      d1.up = true ∧ d1.winChars = d.winChars ∧ d1.structs = d.structs := by
  obtain ⟨win1, h1, hcells⟩ := CharDisplay.update_shows d win hup hw hh hcols hlines hpr
  exact ⟨_, win1, h1, hcells, rfl, rfl, rfl⟩

/-- C21, instance: the 5 by 5 display holding A and B as `redrawStructs()`
leaves it, with 65 at (3,3) and spaces elsewhere, flushed to the 10 by 10
window that shows spaces: afterwards the screen shows 65 at (3,3). -/
theorem update_copies_printable_buffer_witness :
    (Examples.overlap.redrawStructs 0 = .ok Examples.redrawn ∧
      Examples.redrawn.charAt 3 3 = 65 ∧ Examples.window10.cells 3 3 = some 32) ∧
    (Examples.redrawn.up = false ∧ Examples.redrawn.w ≤ Examples.window10.wd ∧
      Examples.redrawn.h ≤ Examples.window10.ht ∧
      Examples.redrawn.w ≤ Examples.window10.cols ∧
      Examples.redrawn.h ≤ Examples.window10.lines) ∧
    ∃ d1 win1, Examples.redrawn.update Examples.window10 = .ok (d1, win1) ∧
      (∀ i j, i < Examples.redrawn.w → j < Examples.redrawn.h →
        win1.cells i j = some (Examples.redrawn.charAt i j)) ∧
      d1.up = true ∧ d1.winChars = Examples.redrawn.winChars ∧
      d1.structs = Examples.redrawn.structs :=
  ⟨⟨rfl, by decide, rfl⟩, by decide,
    update_copies_printable_buffer Examples.redrawn Examples.window10 rfl (by decide)
      (by decide) (by decide) (by decide)
      (fun i j hi hj =>
        (by decide : ∀ i, i < 5 → ∀ j, j < 5 →
          32 ≤ Examples.redrawn.charAt i j ∧ Examples.redrawn.charAt i j ≤ 126) i hi j hj)⟩

/-- C22: on every display with `up = true`, `update()` returns the same
display and the same window (no cell written, cursor where it was); and
whenever a first `update()` returns, a second one on its results returns
those same results. -/
theorem update_idempotent (d : CharDisplay) (win : ASCIIWindow) :
    (d.up = true → d.update win = .ok (d, win)) ∧
      (∀ d1 win1, d.update win = .ok (d1, win1) → d1.update win1 = .ok (d1, win1)) := by
  have hnoop : ∀ (a : CharDisplay) (w : ASCIIWindow), a.up = true →
      a.update w = .ok (a, w) := by
    intro a w ha
    simp [CharDisplay.update, ha]
  refine ⟨hnoop d win, ?_⟩
  intro d1 win1 h
  apply hnoop
  unfold CharDisplay.update at h
  split at h
  · split at h
    · cases h
    · simp only [Except.ok.injEq, Prod.mk.injEq] at h
      rw [← h.1]
  · rename_i hup
    simp only [Except.ok.injEq, Prod.mk.injEq] at h
    rw [← h.1]
    simpa using hup

/-- C22, instance: the flushed display holding A and B, and the cleared
display flushed twice to the 10 by 10 window. -/
theorem update_idempotent_witness :
    Examples.overlap.up = true ∧
      Examples.overlap.update Examples.window10 = .ok (Examples.overlap, Examples.window10) ∧
      ∃ d1 win1, Examples.cleared.update Examples.window10 = .ok (d1, win1) ∧
        d1.update win1 = .ok (d1, win1) := by
  refine ⟨rfl, (update_idempotent Examples.overlap Examples.window10).1 rfl, ?_⟩
  obtain ⟨win1, h1, _⟩ := CharDisplay.update_returns Examples.cleared Examples.window10 rfl
    (by decide) (by decide)
  exact ⟨_, win1, h1, (update_idempotent Examples.cleared Examples.window10).2 _ win1 h1⟩

/-- C23: for every display and every `d`, `scrollX(d)` sets `xs` to
`(xs + d) mod 65536` and leaves `ys`, the buffer (every `charAt(x, y)`), the
dirty flag, the view offset, the width and height and the collection (hence
every stored position and collision code); `scrollY(d)` does the same with
`ys`. -/
theorem scroll_changes_only_offset (d : CharDisplay) (c : Int) :
    ((d.scrollX c).xs = ((d.xs : Int) + c) % 65536 ∧ (d.scrollX c).ys = d.ys ∧
      (d.scrollX c).winChars = d.winChars ∧ (d.scrollX c).up = d.up ∧
      (d.scrollX c).xo = d.xo ∧ (d.scrollX c).yo = d.yo ∧
      (d.scrollX c).w = d.w ∧ (d.scrollX c).h = d.h ∧
      (d.scrollX c).structs = d.structs ∧
      ∀ x y, (d.scrollX c).charAt x y = d.charAt x y) ∧
    ((d.scrollY c).ys = ((d.ys : Int) + c) % 65536 ∧ (d.scrollY c).xs = d.xs ∧
      (d.scrollY c).winChars = d.winChars ∧ (d.scrollY c).up = d.up ∧
      (d.scrollY c).xo = d.xo ∧ (d.scrollY c).yo = d.yo ∧
      (d.scrollY c).w = d.w ∧ (d.scrollY c).h = d.h ∧
      (d.scrollY c).structs = d.structs ∧
      ∀ x y, (d.scrollY c).charAt x y = d.charAt x y) := by
  have hmod : ∀ n : Int, ((toU16 n : Nat) : Int) = n % 65536 := by
    intro n
    unfold toU16
    omega
  refine ⟨⟨?_, rfl, rfl, rfl, rfl, rfl, rfl, rfl, rfl, fun _ _ => rfl⟩,
    ⟨?_, rfl, rfl, rfl, rfl, rfl, rfl, rfl, rfl, fun _ _ => rfl⟩⟩
  · exact hmod _
  · exact hmod _

/-- C24 (code defect): the claim says `Box::write`, hence `redrawStructs()`,
terminates for every box and every scroll offset.  On the 5 by 5 display
holding the filled 1 by 1 box at (0,0), after `scrollX(-1)` the box is
written with offset 65535: the loop test `i < x + wd` is `i < 65536`, and
`redrawStructs()` returns for no amount of fuel. -/
theorem redrawStructs_never_returns_after_scroll :
    ∀ fuel, (Examples.boxDisplay.scrollX (-1)).redrawStructs fuel = .error .outOfFuel := by
  intro fuel
  have hw : ∀ f, Examples.unitBox.write f 65535 0 5 5 = .error .outOfFuel := by
    intro f
    simp only [Box.write, Examples.unitBox, if_true]
    exact Box.writeFill_diverges _ _ _ _ _ _ (by decide) f _ (by decide)
  have hst : (Examples.boxDisplay.scrollX (-1)).clear.writeStructsStores fuel
      = .error .outOfFuel := by
    have hstart : toU16 (((Examples.boxDisplay.scrollX (-1)).clear.structs.length : Int) - 1)
        = 0 := by decide
    have hobj : ∀ h : 0 < (Examples.boxDisplay.scrollX (-1)).clear.structs.length,
        ((Examples.boxDisplay.scrollX (-1)).clear.structs[0]).obj = .box Examples.unitBox :=
      fun _ => rfl
    have hdx : (Examples.boxDisplay.scrollX (-1)).clear.dx = 65535 := by decide
    have hdy : (Examples.boxDisplay.scrollX (-1)).clear.dy = 0 := by decide
    have hdlx : (Examples.boxDisplay.scrollX (-1)).clear.dlx = 5 := by decide
    have hdly : (Examples.boxDisplay.scrollX (-1)).clear.dly = 5 := by decide
    have hlen : 0 < (Examples.boxDisplay.scrollX (-1)).clear.structs.length := by decide
    rw [CharDisplay.writeStructsStores, hstart, CharDisplay.writeStructsLoop,
      CharDisplay.writeStructAt, dif_pos hlen, hobj hlen, hdx, hdy, hdlx, hdly,
      CharStruct.write, hw]
  simp only [CharDisplay.redrawStructs, CharDisplay.writeStructs, hst, bind, Except.bind]

/-- C25: for every box of width and height at least 1 whose translated
origin `(x0, y0) = (xp + xo, yp + yo)` has `x0 + wd <= 65535` and
`y0 + ht <= 65535`, `write` returns (given fuel above the width and the
height); it stores its glyph, and nothing else, at exactly the cells
`(i, j)` with `i < xMax`, `j < yMax`, `x0 <= i < x0 + wd`,
`y0 <= j < y0 + ht` and, when not filled, `i = x0`, `i = x0 + wd - 1`,
`j = y0` or `j = y0 + ht - 1`; so these cells end with the glyph and every
other cell keeps its content. -/
theorem Box_write_paints_rectangle (s : Box) (fuel xo yo xMax yMax : Nat)
    (hwd : 1 ≤ s.wd) (hht : 1 ≤ s.ht)
    (hfitx : s.xp + xo + s.wd ≤ 65535) (hfity : s.yp + yo + s.ht ≤ 65535)
    (hfw : s.wd < fuel) (hfh : s.ht < fuel) :
    ∃ sts, s.write fuel xo yo xMax yMax = .ok sts ∧
      (∀ st, st ∈ sts ↔ ∃ i j : Nat, st = ⟨i, j, s.chr⟩ ∧ s.paints xo yo xMax yMax i j) ∧
      ∀ (buf : Int → Int → Nat) (a b : Int),
        ((∃ i j : Nat, a = i ∧ b = j ∧ s.paints xo yo xMax yMax i j) →
          applyStores sts buf a b = s.chr) ∧
        (¬ (∃ i j : Nat, a = i ∧ b = j ∧ s.paints xo yo xMax yMax i j) →
          applyStores sts buf a b = buf a b) := by
  obtain ⟨sts, hsts, hmem⟩ := Box.mem_write s fuel xo yo xMax yMax hwd hht hfitx hfity hfw hfh
  exact ⟨sts, hsts, hmem, fun buf a b =>
    applyStores_paint s.chr (s.paints xo yo xMax yMax) sts hmem buf a b⟩

/-- C25, instance: the filled 3 by 2 box at (1,1) written with offset (2,0)
and bounds (5,5). -/
theorem Box_write_paints_rectangle_witness :
    (1 ≤ Examples.solid3x2.wd ∧ 1 ≤ Examples.solid3x2.ht ∧
      Examples.solid3x2.xp + 2 + Examples.solid3x2.wd ≤ 65535 ∧
      Examples.solid3x2.yp + 0 + Examples.solid3x2.ht ≤ 65535 ∧
      Examples.solid3x2.wd < 4 ∧ Examples.solid3x2.ht < 4) ∧
    ∃ sts, Examples.solid3x2.write 4 2 0 5 5 = .ok sts ∧
      (∀ st, st ∈ sts ↔
        ∃ i j : Nat, st = ⟨i, j, Examples.solid3x2.chr⟩ ∧
          Examples.solid3x2.paints 2 0 5 5 i j) ∧
      ∀ (buf : Int → Int → Nat) (a b : Int),
        ((∃ i j : Nat, a = i ∧ b = j ∧ Examples.solid3x2.paints 2 0 5 5 i j) →
          applyStores sts buf a b = Examples.solid3x2.chr) ∧
        (¬ (∃ i j : Nat, a = i ∧ b = j ∧ Examples.solid3x2.paints 2 0 5 5 i j) →
          applyStores sts buf a b = buf a b) :=
  ⟨by decide, Box_write_paints_rectangle Examples.solid3x2 4 2 0 5 5 (by decide) (by decide)
    (by decide) (by decide) (by decide) (by decide)⟩

/-- C26 (code defect): the claim says `inChars(x, y)` is true exactly where
`write` puts the glyph.  The outline branch of `Box::inChars` is the
`onBorder` expression of `Box::inColl`, without `inBox`: for the 8 by 8
outline box at (0,0), `inChars(0,100)` is true, and `write` with zero offset
and bounds (200,200) performs no store at (0,100). -/
theorem Box_inChars_true_where_not_drawn :
    Examples.outline8.inChars 0 100 = true ∧
      (Examples.outline8.write 9 0 0 200 200).map
        (fun sts => sts.any (fun st => decide (st.x = 0 ∧ st.y = 100))) = .ok false := by
  decide

/-- C27 (code defect): the claim says every constructor that receives
`charac` builds a box with that glyph.  The four constructors without width
and height pass the literal `'0'` (48) on: `Box(1, 0, 0, '#', true, true)`
has glyph 48, not 35, and `write` stores 48. -/
theorem Box_constructor_ignores_charac :
    (Box.newAtFilledColl 1 0 0 35 true true).chr = 48 ∧
      (Box.newAtFilledColl 1 0 0 35 true true).write 9 0 0 1 1 = .ok [⟨0, 0, 48⟩] := by
  decide

/-- C28 (code defect): the claim says `addEntry` returns the index of the
entry it adds, 0, 1, 2, ... on a fresh menu.  `opts` is never incremented:
the second call on a fresh menu appends at position 1 and returns 0. -/
theorem Menu_addEntry_returns_zero :
    (Menu.new.addEntry 4 5).1 = 0 ∧ ((Menu.new.addEntry 4 5).2.addEntry 6 7).1 = 0 ∧
      ((Menu.new.addEntry 4 5).2.addEntry 6 7).2.opX = [4, 6] := by
  decide

/-- C29: for every display and query: when `hasCollCode(x, y, code)` returns
true, some shape of the collection has its own `collisionCode()` equal to
`code` and collides at `(x, y)`, and when that shape is a group, its own
code is `code` and one of its children collides at `(x, y)`; and when no
shape of the collection has its own code equal to `code`, the call returns
false, whatever the codes of the children of the groups. -/
theorem hasCollCode_group_own_code (d : CharDisplay) (fuel x y code : Nat) :
    (d.hasCollCode fuel x y code = .ok true →
      ∃ e ∈ d.structs, e.obj.collisionCode = code ∧ e.obj.inColl fuel x y = .ok true ∧
        ∀ c xp yp children, e.obj = .group c xp yp children →
          c = code ∧ ∃ child ∈ children, ∃ f, child.inColl f x y = .ok true) ∧
    ((∀ e ∈ d.structs, e.obj.collisionCode ≠ code) →
      d.hasCollCode fuel x y code = .ok false) := by
  constructor
  · intro h
    obtain ⟨e, he, hc, hin⟩ := CharDisplay.hasCollCodeLoop_true d.structs fuel x y code _ h
    refine ⟨e, he, hc, hin, ?_⟩
    intro c xp yp children hobj
    rw [hobj] at hc hin
    exact ⟨hc, CharStruct.group_inColl_true c xp yp children fuel x y hin⟩
  · intro hno
    unfold CharDisplay.hasCollCode
    by_cases hempty : d.structs.length = 0
    · rw [hempty]
      have : toU16 (((0 : Nat) : Int) - 1) = 65534 + 1 := by decide
      rw [this, CharDisplay.hasCollCodeLoop]
      simp
    · apply CharDisplay.hasCollCodeLoop_no_code d.structs fuel x y code hno
      have hlt : (((d.structs.length : Int) - 1) % 65536).toNat < d.structs.length := by
        omega
      exact hlt

/-- C29, instance: the display holding one group with code 7 whose child,
with code 1, collides at (3,3): the query for code 7 is true, the one for
code 1 is false. -/
theorem hasCollCode_group_own_code_witness :
    (Examples.groupOnly.hasCollCode 1 3 3 7 = .ok true ∧
      (∀ e ∈ Examples.groupOnly.structs, e.obj.collisionCode ≠ 1)) ∧
    (∃ e ∈ Examples.groupOnly.structs, e.obj.collisionCode = 7 ∧
        e.obj.inColl 1 3 3 = .ok true ∧
        ∀ c xp yp children, e.obj = .group c xp yp children →
          c = 7 ∧ ∃ child ∈ children, ∃ f, child.inColl f 3 3 = .ok true) ∧
    Examples.groupOnly.hasCollCode 1 3 3 1 = .ok false :=
  ⟨by decide, (hasCollCode_group_own_code Examples.groupOnly 1 3 3 7).1 (by decide),
    (hasCollCode_group_own_code Examples.groupOnly 1 3 3 1).2 (by decide)⟩

/-- C30: for every line with `xp + len <= 65536` and `yp + len <= 65536` and
every bounds, `write` with zero offset stores the glyph, and nothing else,
at exactly the cells `(x, y)` with `x < xMax`, `y < yMax` and `inColl(x, y)`
true; so these cells end with the glyph and every other cell keeps its
content. -/
theorem Line_write_iff_inColl (s : Line) (xMax yMax : Nat)
    (hx : s.xp + s.len ≤ 65536) (hy : s.yp + s.len ≤ 65536) :
    (∀ st, st ∈ s.write 0 0 xMax yMax ↔
      ∃ x y : Nat, st = ⟨x, y, s.chr⟩ ∧ (x < xMax ∧ y < yMax ∧ s.inColl x y = true)) ∧
    ∀ (buf : Int → Int → Nat) (a b : Int),
      ((∃ x y : Nat, a = x ∧ b = y ∧ (x < xMax ∧ y < yMax ∧ s.inColl x y = true)) →
        applyStores (s.write 0 0 xMax yMax) buf a b = s.chr) ∧
      (¬ (∃ x y : Nat, a = x ∧ b = y ∧ (x < xMax ∧ y < yMax ∧ s.inColl x y = true)) →
        applyStores (s.write 0 0 xMax yMax) buf a b = buf a b) := by
  have hmem := Line.mem_write_zero s xMax yMax hx hy
  exact ⟨hmem, fun buf a b => applyStores_paint s.chr
    (fun x y => x < xMax ∧ y < yMax ∧ s.inColl x y = true) _ hmem buf a b⟩

/-- C30, instance: the horizontal line of length 5 at (2,1) written with
bounds (4,9). -/
theorem Line_write_iff_inColl_witness :
    (Examples.dash5.xp + Examples.dash5.len ≤ 65536 ∧
      Examples.dash5.yp + Examples.dash5.len ≤ 65536) ∧
    ((∀ st, st ∈ Examples.dash5.write 0 0 4 9 ↔
      ∃ x y : Nat, st = ⟨x, y, Examples.dash5.chr⟩ ∧
        (x < 4 ∧ y < 9 ∧ Examples.dash5.inColl x y = true)) ∧
    ∀ (buf : Int → Int → Nat) (a b : Int),
      ((∃ x y : Nat, a = x ∧ b = y ∧ (x < 4 ∧ y < 9 ∧ Examples.dash5.inColl x y = true)) →
        applyStores (Examples.dash5.write 0 0 4 9) buf a b = Examples.dash5.chr) ∧
      (¬ (∃ x y : Nat, a = x ∧ b = y ∧ (x < 4 ∧ y < 9 ∧ Examples.dash5.inColl x y = true)) →
        applyStores (Examples.dash5.write 0 0 4 9) buf a b = buf a b)) :=
  ⟨by decide, Line_write_iff_inColl Examples.dash5 4 9 (by decide) (by decide)⟩

/-! ## Redraw twice -/

/-- A display returned by `redrawStructs` differs from the one it was
called on in the buffer and the flag `up` only, and `up` is false. -/
theorem CharDisplay.redrawStructs_fields (d d1 : CharDisplay) (fuel : Nat)
    (h : d.redrawStructs fuel = .ok d1) :
    d1.structs = d.structs ∧ d1.w = d.w ∧ d1.h = d.h ∧ d1.xo = d.xo ∧ d1.yo = d.yo ∧
      d1.xs = d.xs ∧ d1.ys = d.ys ∧ d1.up = false := by
  unfold CharDisplay.redrawStructs CharDisplay.writeStructs at h
  cases hs : d.clear.writeStructsStores fuel with
  | error e => rw [hs] at h; simp [bind, Except.bind] at h
  | ok sts =>
    rw [hs] at h
    simp only [bind, Except.bind, pure, Except.pure, Except.ok.injEq] at h
    subst h
    exact ⟨rfl, rfl, rfl, rfl, rfl, rfl, rfl, rfl⟩

/-- C31: for every display and every fuel, (1) a display with the same
collection, size, view offset and scroll offset, whatever its buffer and
its flag `up` hold, has the same outcome of `redrawStructs()`: both calls
fail in the same way, or both return, with the same character in every
cell of the `w` by `h` buffer and with `up` false; (2) `redrawStructs()`
followed by `redrawStructs()` has the same outcome as a single
`redrawStructs()`: the same failure, or the same characters in every
buffer cell, and the same flag `up`. -/
theorem redrawStructs_idempotent_history_free (d : CharDisplay) (fuel : Nat) :
    (∀ d2 : CharDisplay, d2.structs = d.structs → d2.w = d.w → d2.h = d.h →
        d2.xo = d.xo → d2.yo = d.yo → d2.xs = d.xs → d2.ys = d.ys →
      CharDisplay.sameBuffer (d.redrawStructs fuel) (d2.redrawStructs fuel) ∧
      ∀ a b, d.redrawStructs fuel = .ok a → d2.redrawStructs fuel = .ok b →
        a.up = false ∧ b.up = false) ∧
    CharDisplay.sameBuffer ((d.redrawStructs fuel).bind fun d1 => d1.redrawStructs fuel)
      (d.redrawStructs fuel) ∧
    ∀ d1 d2, d.redrawStructs fuel = .ok d1 → d1.redrawStructs fuel = .ok d2 →
      d2.up = d1.up := by
  refine ⟨?_, ?_, ?_⟩
  · intro d2 hs hw hh hxo hyo hxs hys
    refine ⟨CharDisplay.redrawStructs_sameBuffer d d2 fuel hs.symm hw.symm hh.symm hxo.symm
      hyo.symm hxs.symm hys.symm, ?_⟩
    intro a b ha hb
    exact ⟨(CharDisplay.redrawStructs_fields d a fuel ha).2.2.2.2.2.2.2,
      (CharDisplay.redrawStructs_fields d2 b fuel hb).2.2.2.2.2.2.2⟩
  · cases hr : d.redrawStructs fuel with
    | error e => simp [Except.bind, CharDisplay.sameBuffer]
    | ok d1 =>
      obtain ⟨hs, hw, hh, hxo, hyo, hxs, hys, _⟩ := CharDisplay.redrawStructs_fields d d1 fuel hr
      have h := CharDisplay.redrawStructs_sameBuffer d1 d fuel hs hw hh hxo hyo hxs hys
      rw [hr] at h
      exact h
  · intro d1 d2 h1 h2
    rw [(CharDisplay.redrawStructs_fields d d1 fuel h1).2.2.2.2.2.2.2,
      (CharDisplay.redrawStructs_fields d1 d2 fuel h2).2.2.2.2.2.2.2]

/-- C31, instance: the display holding A and B.  Its redraw returns; the
redraw done twice agrees with the redraw done once; and the display whose
buffer was blanked before (spaces instead of zeros) redraws to the same
buffer. -/
theorem redrawStructs_idempotent_history_free_witness :
    (∃ d1, Examples.overlap.redrawStructs 1 = .ok d1) ∧
    CharDisplay.sameBuffer
      ((Examples.overlap.redrawStructs 1).bind fun d1 => d1.redrawStructs 1)
      (Examples.overlap.redrawStructs 1) ∧
    CharDisplay.sameBuffer (Examples.overlap.redrawStructs 1)
      (Examples.cleared.redrawStructs 1) :=
  ⟨⟨_, rfl⟩, (redrawStructs_idempotent_history_free Examples.overlap 1).2.1,
    ((redrawStructs_idempotent_history_free Examples.overlap 1).1 Examples.cleared
      rfl rfl rfl rfl rfl rfl rfl).1⟩

/-! ## `moveCursor` -/

/-- The flag returned by `moveCursor`. -/
theorem ASCIIWindow.moveCursor_fst (win : ASCIIWindow) (byX byY : Int) :
    (win.moveCursor byX byY).1 =
      !(decide (toU16 ((win.posX : Int) + byX) ≥ win.wd) ||
        decide (toU16 ((win.posY : Int) + byY) ≥ win.ht)) := by
  simp only [ASCIIWindow.moveCursor]
  split_ifs <;> rfl

/-- The column of the cursor after `moveCursor`. -/
theorem ASCIIWindow.moveCursor_posX (win : ASCIIWindow) (byX byY : Int) :
    (win.moveCursor byX byY).2.posX =
      if toU16 ((win.posX : Int) + byX) ≥ win.wd ∨ toU16 ((win.posY : Int) + byY) ≥ win.ht then
        if (if toU16 ((win.posX : Int) + byX) > 32767 then 0
            else toU16 ((win.posX : Int) + byX)) ≥ win.wd then toU16 ((win.wd : Int) - 1)
        else if toU16 ((win.posX : Int) + byX) > 32767 then 0
          else toU16 ((win.posX : Int) + byX)
      else toU16 ((win.posX : Int) + byX) := by
  simp only [ASCIIWindow.moveCursor, Bool.or_eq_true, decide_eq_true_eq]
  split_ifs <;> rfl

/-- The row of the cursor after `moveCursor`. -/
theorem ASCIIWindow.moveCursor_posY (win : ASCIIWindow) (byX byY : Int) :
    (win.moveCursor byX byY).2.posY =
      if toU16 ((win.posX : Int) + byX) ≥ win.wd ∨ toU16 ((win.posY : Int) + byY) ≥ win.ht then
        if (if toU16 ((win.posY : Int) + byY) > 32767 then 0
            else toU16 ((win.posY : Int) + byY)) ≥ win.ht then toU16 ((win.ht : Int) - 1)
        else if toU16 ((win.posY : Int) + byY) > 32767 then 0
          else toU16 ((win.posY : Int) + byY)
      else toU16 ((win.posY : Int) + byY) := by
  simp only [ASCIIWindow.moveCursor, Bool.or_eq_true, decide_eq_true_eq]
  split_ifs <;> rfl

/-- The window size and the screen are not touched by `moveCursor`. -/
theorem ASCIIWindow.moveCursor_frame (win : ASCIIWindow) (byX byY : Int) :
    (win.moveCursor byX byY).2.wd = win.wd ∧ (win.moveCursor byX byY).2.ht = win.ht ∧
      (win.moveCursor byX byY).2.cells = win.cells := by
  simp only [ASCIIWindow.moveCursor]
  split_ifs <;> exact ⟨rfl, rfl, rfl⟩

/-- C32, counterexample: on the 10 by 10 window with the cursor at (5,0),
in bounds, `moveCursor(32767, 0)` leaves the cursor at column 0 and returns
false, while `clamp(5 + 32767, 0, 9)` is 9: the sum 32772 is above 32767 and
is taken for a negative position. -/
theorem moveCursor_far_right_lands_on_left_edge :
    (1 ≤ Examples.cursorAt5.wd ∧ 1 ≤ Examples.cursorAt5.ht ∧
      Examples.cursorAt5.posX < Examples.cursorAt5.wd ∧
      Examples.cursorAt5.posY < Examples.cursorAt5.ht) ∧
    (Examples.cursorAt5.moveCursor 32767 0).2.posX = 0 ∧
    (Examples.cursorAt5.moveCursor 32767 0).2.posY = 0 ∧
    (Examples.cursorAt5.moveCursor 32767 0).1 = false ∧
    max 0 (min ((Examples.cursorAt5.posX : Int) + 32767)
      ((Examples.cursorAt5.wd : Int) - 1)) = 9 := by
  decide

/-- C32, amended: for every window with `1 <= wd <= 32768` and
`1 <= ht <= 32768`, every in-bounds cursor and every signed 16-bit
`(byX, byY)`, after `moveCursor(byX, byY)` the cursor is again in bounds;
the call returns true exactly when `0 <= posX + byX < wd` and
`0 <= posY + byY < ht` over the integers, that is when nothing is clamped;
the column is `clamp(posX + byX, 0, wd - 1)` when `posX + byX <= 32767` and
0 otherwise, the row is `clamp(posY + byY, 0, ht - 1)` when
`posY + byY <= 32767` and 0 otherwise; size and screen are unchanged. -/
theorem moveCursor_clamps_below_32768 (win : ASCIIWindow) (byX byY : Int)
    (hwd : 1 ≤ win.wd ∧ win.wd ≤ 32768) (hht : 1 ≤ win.ht ∧ win.ht ≤ 32768)
    (hx : win.posX < win.wd) (hy : win.posY < win.ht)
    (hbx : -32768 ≤ byX ∧ byX ≤ 32767) (hby : -32768 ≤ byY ∧ byY ≤ 32767) :
    ((win.moveCursor byX byY).2.posX < win.wd ∧ (win.moveCursor byX byY).2.posY < win.ht) ∧
    ((win.moveCursor byX byY).1 = true ↔
      (0 ≤ (win.posX : Int) + byX ∧ (win.posX : Int) + byX < win.wd) ∧
      (0 ≤ (win.posY : Int) + byY ∧ (win.posY : Int) + byY < win.ht)) ∧
    (((win.moveCursor byX byY).2.posX : Int) =
      if (win.posX : Int) + byX ≤ 32767 then
        max 0 (min ((win.posX : Int) + byX) ((win.wd : Int) - 1))
      else 0) ∧
    (((win.moveCursor byX byY).2.posY : Int) =
      if (win.posY : Int) + byY ≤ 32767 then
        max 0 (min ((win.posY : Int) + byY) ((win.ht : Int) - 1))
      else 0) ∧
    (win.moveCursor byX byY).2.wd = win.wd ∧ (win.moveCursor byX byY).2.ht = win.ht ∧
    (win.moveCursor byX byY).2.cells = win.cells := by
  obtain ⟨hw1, hw2⟩ := hwd
  obtain ⟨hh1, hh2⟩ := hht
  obtain ⟨hbx1, hbx2⟩ := hbx
  obtain ⟨hby1, hby2⟩ := hby
  obtain ⟨X, hX⟩ : ∃ X, toU16 ((win.posX : Int) + byX) = X := ⟨_, rfl⟩
  obtain ⟨Y, hY⟩ : ∃ Y, toU16 ((win.posY : Int) + byY) = Y := ⟨_, rfl⟩
  have hwm : toU16 ((win.wd : Int) - 1) = win.wd - 1 := by unfold toU16; omega
  have hhm : toU16 ((win.ht : Int) - 1) = win.ht - 1 := by unfold toU16; omega
  rw [ASCIIWindow.moveCursor_fst, ASCIIWindow.moveCursor_posX, ASCIIWindow.moveCursor_posY,
    hX, hY, hwm, hhm]
  unfold toU16 at hX hY
  refine ⟨⟨?_, ?_⟩, ?_, ?_, ?_, ASCIIWindow.moveCursor_frame win byX byY⟩
  · split_ifs <;> omega
  · split_ifs <;> omega
  · simp only [Bool.not_eq_true', Bool.or_eq_false_iff, decide_eq_false_iff_not]
    omega
  · split_ifs <;> omega
  · split_ifs <;> omega

/-- C32, instance: the 10 by 10 window with the cursor at (5,0) and the
move by (-7, 3): the column is clamped to 0, the row becomes 3, and the call
returns false. -/
theorem moveCursor_clamps_below_32768_witness :
    ((1 ≤ Examples.cursorAt5.wd ∧ Examples.cursorAt5.wd ≤ 32768) ∧
      (1 ≤ Examples.cursorAt5.ht ∧ Examples.cursorAt5.ht ≤ 32768) ∧
      Examples.cursorAt5.posX < Examples.cursorAt5.wd ∧
      Examples.cursorAt5.posY < Examples.cursorAt5.ht) ∧
    ((Examples.cursorAt5.moveCursor (-7) 3).2.posX = 0 ∧
      (Examples.cursorAt5.moveCursor (-7) 3).2.posY = 3 ∧
      (Examples.cursorAt5.moveCursor (-7) 3).1 = false) ∧
    (((Examples.cursorAt5.moveCursor (-7) 3).2.posX < Examples.cursorAt5.wd ∧
        (Examples.cursorAt5.moveCursor (-7) 3).2.posY < Examples.cursorAt5.ht) ∧
      ((Examples.cursorAt5.moveCursor (-7) 3).1 = true ↔
        (0 ≤ (Examples.cursorAt5.posX : Int) + (-7) ∧
          (Examples.cursorAt5.posX : Int) + (-7) < Examples.cursorAt5.wd) ∧
        (0 ≤ (Examples.cursorAt5.posY : Int) + 3 ∧
          (Examples.cursorAt5.posY : Int) + 3 < Examples.cursorAt5.ht)) ∧
      (((Examples.cursorAt5.moveCursor (-7) 3).2.posX : Int) =
        if (Examples.cursorAt5.posX : Int) + (-7) ≤ 32767 then
          max 0 (min ((Examples.cursorAt5.posX : Int) + (-7))
            ((Examples.cursorAt5.wd : Int) - 1))
        else 0) ∧
      (((Examples.cursorAt5.moveCursor (-7) 3).2.posY : Int) =
        if (Examples.cursorAt5.posY : Int) + 3 ≤ 32767 then
          max 0 (min ((Examples.cursorAt5.posY : Int) + 3)
            ((Examples.cursorAt5.ht : Int) - 1))
        else 0) ∧
      (Examples.cursorAt5.moveCursor (-7) 3).2.wd = Examples.cursorAt5.wd ∧
      (Examples.cursorAt5.moveCursor (-7) 3).2.ht = Examples.cursorAt5.ht ∧
      (Examples.cursorAt5.moveCursor (-7) 3).2.cells = Examples.cursorAt5.cells) :=
  ⟨by decide, by decide,
    moveCursor_clamps_below_32768 Examples.cursorAt5 (-7) 3 (by decide) (by decide)
      (by decide) (by decide) (by decide) (by decide)⟩

end ASCIIEngine
